import Mathlib

/-!
Verification of the ML-DSA key-material codec
(providers/implementations/encode_decode/ml_dsa_codecs.c).

The embedding models byte buffers as `List Nat` (each entry a byte value;
reads apply `% 256` as the C code reads `uint8_t`), pointers into a buffer
as `Nat` offsets from the start of the buffer, and C strings as `List Char`
(without the terminating NUL, whose effect on `strncasecmp` is modelled
explicitly).  Fallible operations return `Except`/`Option`.
-/

set_option maxRecDepth 100000

/-- Format descriptor for one PKCS#8 private-key layout (struct
`ML_DSA_PKCS8_FMT` from ml_dsa_codecs.h, with the fields in the order of the
table initializers in ml_dsa_codecs.c).  A zero offset/length means that
sub-field is absent. -/
structure ML_DSA_PKCS8_FMT where
  p8_name : List Char
  p8_bytes : Nat
  p8_shift : Nat
  p8_magic : Nat
  seed_magic : Nat
  seed_offset : Nat
  seed_length : Nat
  priv_magic : Nat
  priv_offset : Nat
  priv_length : Nat
  pub_offset : Nat
  pub_length : Nat
deriving DecidableEq

/-- Per-variant fixed sizes (the fields of `ML_DSA_PARAMS` that this codec
consults: public-key length and private-key length in bytes). -/
structure ML_DSA_PARAMS where
  pk_len : Nat
  sk_len : Nat
deriving DecidableEq

/-- Seed length, fixed at 32 bytes for every parameter set. -/
def ML_DSA_SEED_BYTES : Nat := 32

/-- Number of PKCS#8 format descriptors per parameter set. -/
def NUM_PKCS8_FORMATS : Nat := 6

/-- Length of the fixed SPKI prefix preceding the raw public key bytes. -/
def ML_DSA_SPKI_OVERHEAD : Nat := 22

def nm_seed_priv : List Char := "seed-priv".data

def nm_priv_only : List Char := "priv-only".data

def nm_oqskeypair : List Char := "oqskeypair".data

def nm_seed_only : List Char := "seed-only".data

def nm_bare_priv : List Char := "bare-priv".data

def nm_bare_seed : List Char := "bare-seed".data

/-- ML-DSA-44 fixed sizes: public 1312 (0x0520), private 2560 (0x0a00). -/
def ml_dsa_44_params : ML_DSA_PARAMS := ⟨0x0520, 0x0a00⟩

/-- ML-DSA-65 fixed sizes: public 1952 (0x07a0), private 4032 (0x0fc0). -/
def ml_dsa_65_params : ML_DSA_PARAMS := ⟨0x07a0, 0x0fc0⟩

/-- ML-DSA-87 fixed sizes: public 2592 (0x0a20), private 4896 (0x1320). -/
def ml_dsa_87_params : ML_DSA_PARAMS := ⟨0x0a20, 0x1320⟩

/-- SPKI prefix bytes for ML-DSA-44 (`ml_dsa_44_spkifmt.asn1_prefix`). -/
def ml_dsa_44_spkifmt : List Nat :=
  [0x30, 0x82, 0x05, 0x32, 0x30, 0x0b, 0x06, 0x09, 0x60, 0x86, 0x48,
   0x01, 0x65, 0x03, 0x04, 0x03, 0x11, 0x03, 0x82, 0x05, 0x21, 0x00]

/-- SPKI prefix bytes for ML-DSA-65. -/
def ml_dsa_65_spkifmt : List Nat :=
  [0x30, 0x82, 0x07, 0xb2, 0x30, 0x0b, 0x06, 0x09, 0x60, 0x86, 0x48,
   0x01, 0x65, 0x03, 0x04, 0x03, 0x12, 0x03, 0x82, 0x07, 0xa1, 0x00]

/-- SPKI prefix bytes for ML-DSA-87. -/
def ml_dsa_87_spkifmt : List Nat :=
  [0x30, 0x82, 0x0a, 0x32, 0x30, 0x0b, 0x06, 0x09, 0x60, 0x86, 0x48,
   0x01, 0x65, 0x03, 0x04, 0x03, 0x13, 0x03, 0x82, 0x0a, 0x21, 0x00]

def ml_dsa_44_fmt_seed_priv : ML_DSA_PKCS8_FMT :=
  ⟨nm_seed_priv, 0x0a2a, 0, 0x30820a26, 0x0420, 6, 0x20, 0x04820a00, 0x2a, 0x0a00, 0, 0⟩

def ml_dsa_44_fmt_priv_only : ML_DSA_PKCS8_FMT :=
  ⟨nm_priv_only, 0x0a04, 0, 0x04820a00, 0, 0, 0, 0, 0x04, 0x0a00, 0, 0⟩

def ml_dsa_44_fmt_oqskeypair : ML_DSA_PKCS8_FMT :=
  ⟨nm_oqskeypair, 0x0f24, 0, 0x04820f20, 0, 0, 0, 0, 0x04, 0x0a00, 0x0a04, 0x0520⟩

def ml_dsa_44_fmt_seed_only : ML_DSA_PKCS8_FMT :=
  ⟨nm_seed_only, 0x0022, 2, 0x8020, 0, 2, 0x20, 0, 0, 0, 0, 0⟩

def ml_dsa_44_fmt_bare_priv : ML_DSA_PKCS8_FMT :=
  ⟨nm_bare_priv, 0x0a00, 4, 0, 0, 0, 0, 0, 0, 0x0a00, 0, 0⟩

def ml_dsa_44_fmt_bare_seed : ML_DSA_PKCS8_FMT :=
  ⟨nm_bare_seed, 0x0020, 4, 0, 0, 0, 0x20, 0, 0, 0, 0, 0⟩

/-- Compiled-in PKCS#8 format table for ML-DSA-44, in table order. -/
def ml_dsa_44_p8fmt : List ML_DSA_PKCS8_FMT :=
  [ml_dsa_44_fmt_seed_priv, ml_dsa_44_fmt_priv_only, ml_dsa_44_fmt_oqskeypair,
   ml_dsa_44_fmt_seed_only, ml_dsa_44_fmt_bare_priv, ml_dsa_44_fmt_bare_seed]

def ml_dsa_65_fmt_seed_priv : ML_DSA_PKCS8_FMT :=
  ⟨nm_seed_priv, 0x0fea, 0, 0x30820fe6, 0x0420, 6, 0x20, 0x04820fc0, 0x2a, 0x0fc0, 0, 0⟩

def ml_dsa_65_fmt_priv_only : ML_DSA_PKCS8_FMT :=
  ⟨nm_priv_only, 0x0fc4, 0, 0x04820fc0, 0, 0, 0, 0, 0x04, 0x0fc0, 0, 0⟩

def ml_dsa_65_fmt_oqskeypair : ML_DSA_PKCS8_FMT :=
  ⟨nm_oqskeypair, 0x1764, 0, 0x04821760, 0, 0, 0, 0, 0x04, 0x0fc0, 0x0fc4, 0x07a0⟩

def ml_dsa_65_fmt_seed_only : ML_DSA_PKCS8_FMT :=
  ⟨nm_seed_only, 0x0022, 2, 0x8020, 0, 2, 0x20, 0, 0, 0, 0, 0⟩

def ml_dsa_65_fmt_bare_priv : ML_DSA_PKCS8_FMT :=
  ⟨nm_bare_priv, 0x0fc0, 4, 0, 0, 0, 0, 0, 0, 0x0fc0, 0, 0⟩

def ml_dsa_65_fmt_bare_seed : ML_DSA_PKCS8_FMT :=
  ⟨nm_bare_seed, 0x0020, 4, 0, 0, 0, 0x20, 0, 0, 0, 0, 0⟩

/-- Compiled-in PKCS#8 format table for ML-DSA-65, in table order. -/
def ml_dsa_65_p8fmt : List ML_DSA_PKCS8_FMT :=
  [ml_dsa_65_fmt_seed_priv, ml_dsa_65_fmt_priv_only, ml_dsa_65_fmt_oqskeypair,
   ml_dsa_65_fmt_seed_only, ml_dsa_65_fmt_bare_priv, ml_dsa_65_fmt_bare_seed]

def ml_dsa_87_fmt_seed_priv : ML_DSA_PKCS8_FMT :=
  ⟨nm_seed_priv, 0x134a, 0, 0x30821346, 0x0420, 6, 0x20, 0x04821320, 0x2a, 0x1320, 0, 0⟩

def ml_dsa_87_fmt_priv_only : ML_DSA_PKCS8_FMT :=
  ⟨nm_priv_only, 0x1324, 0, 0x04821320, 0, 0, 0, 0, 0x04, 0x1320, 0, 0⟩

def ml_dsa_87_fmt_oqskeypair : ML_DSA_PKCS8_FMT :=
  ⟨nm_oqskeypair, 0x1d44, 0, 0x04821d40, 0, 0, 0, 0, 0x04, 0x1320, 0x1324, 0x0a20⟩

def ml_dsa_87_fmt_seed_only : ML_DSA_PKCS8_FMT :=
  ⟨nm_seed_only, 0x0022, 2, 0x8020, 0, 2, 0x20, 0, 0, 0, 0, 0⟩

def ml_dsa_87_fmt_bare_priv : ML_DSA_PKCS8_FMT :=
  ⟨nm_bare_priv, 0x1320, 4, 0, 0, 0, 0, 0, 0, 0x1320, 0, 0⟩

def ml_dsa_87_fmt_bare_seed : ML_DSA_PKCS8_FMT :=
  ⟨nm_bare_seed, 0x0020, 4, 0, 0, 0, 0x20, 0, 0, 0, 0, 0⟩

/-- Compiled-in PKCS#8 format table for ML-DSA-87, in table order. -/
def ml_dsa_87_p8fmt : List ML_DSA_PKCS8_FMT :=
  [ml_dsa_87_fmt_seed_priv, ml_dsa_87_fmt_priv_only, ml_dsa_87_fmt_oqskeypair,
   ml_dsa_87_fmt_seed_only, ml_dsa_87_fmt_bare_priv, ml_dsa_87_fmt_bare_seed]

/-- Big-endian value of a byte list (each entry read modulo 256, as the C
code reads `uint8_t` memory). -/
def beVal (l : List Nat) : Nat := l.foldl (fun a b => a * 256 + b % 256) 0

/-- Model of `OPENSSL_load_u32_be` reading at offset `off` of `buf`. -/
def loadU32BE (buf : List Nat) (off : Nat) : Nat := beVal ((buf.drop off).take 4)

/-- Model of `OPENSSL_load_u16_be` reading at offset `off` of `buf`. -/
def loadU16BE (buf : List Nat) (off : Nat) : Nat := beVal ((buf.drop off).take 2)

/-- Model of `OPENSSL_store_u32_be`: the four big-endian bytes of `m`. -/
def storeU32BE (m : Nat) : List Nat :=
  [m / 2 ^ 24 % 256, m / 2 ^ 16 % 256, m / 2 ^ 8 % 256, m % 256]

/-- Model of `OPENSSL_store_u16_be` applied to `(uint16_t) m`: the two
big-endian bytes of the low 16 bits of `m`. -/
def storeU16BE (m : Nat) : List Nat := [m / 2 ^ 8 % 256, m % 256]

/-- One slot of the preference list built by `vp8_order`
(struct `ML_DSA_PKCS8_FMT_PREF`). -/
structure ML_DSA_PKCS8_FMT_PREF where
  fmt : ML_DSA_PKCS8_FMT
  pref : Nat
deriving DecidableEq

/-- Comparator handed to qsort by `vp8_order`: nonzero preferences in
increasing order, zero preferences sorted last. -/
def pref_cmp (a b : ML_DSA_PKCS8_FMT_PREF) : Int :=
  if 0 < a.pref ∧ 0 < b.pref then (a.pref : Int) - (b.pref : Int)
  else (b.pref : Int) - (a.pref : Int)

/-- Order induced by `pref_cmp`: `a` may be placed no later than `b`. -/
def prefLE (a b : ML_DSA_PKCS8_FMT_PREF) : Prop := pref_cmp a b ≤ 0

instance : DecidableRel prefLE := fun a b =>
  inferInstanceAs (Decidable (pref_cmp a b ≤ 0))

instance : IsTotal ML_DSA_PKCS8_FMT_PREF prefLE := by
  constructor
  intro a b
  unfold prefLE pref_cmp
  split_ifs with h1 h2 <;> omega

instance : IsTrans ML_DSA_PKCS8_FMT_PREF prefLE := by
  constructor
  intro a b c hab hbc
  unfold prefLE pref_cmp at *
  split_ifs at * <;> omega

/-- Separator set used when parsing a formats configuration string
(tab, space, comma). -/
def isSep (c : Char) : Bool := c == '\t' || c == ' ' || c == ','

/-- Helper for `tokenize`: scan the characters, accumulating the current
token in reverse. -/
def tokSplit : List Char → List Char → List (List Char)
  | [], acc => if acc = [] then [] else [acc.reverse]
  | c :: cs, acc =>
    if isSep c then
      (if acc = [] then tokSplit cs [] else acc.reverse :: tokSplit cs [])
    else tokSplit cs (c :: acc)

/-- Split a configuration string into the maximal nonempty runs of
non-separator characters, in order: the token sequence that the
strspn/strcspn loop of `vp8_order` walks. -/
def tokenize (s : List Char) : List (List Char) := tokSplit s []

/-- ASCII lower-casing of one character, as OPENSSL_strncasecmp does. -/
def lowerC (c : Char) : Char :=
  if 'A' ≤ c ∧ c ≤ 'Z' then Char.ofNat (c.toNat + 32) else c

/-- Model of `OPENSSL_strncasecmp(a, b, n) == 0` for NUL-free strings `a`
and `b`: compare up to `n` characters case-insensitively; if one string
ends before `n` characters and the other does not, the terminating NUL
differs from the other string's character, so the comparison fails. -/
def strncaseEq : List Char → List Char → Nat → Bool
  | _, _, 0 => true
  | [], [], _ + 1 => true
  | [], _ :: _, _ + 1 => false
  | _ :: _, [], _ + 1 => false
  | a :: as, b :: bs, n + 1 => lowerC a == lowerC b && strncaseEq as bs n

/-- One token step of the `vp8_order` matching loop: find the first slot
that is not yet selected and whose name matches the token (compared over
the token's length), and give it preference `count + 1`.  Returns `none`
when no slot matches. -/
def markTok (tok : List Char) (count : Nat) :
    List ML_DSA_PKCS8_FMT_PREF → Option (List ML_DSA_PKCS8_FMT_PREF)
  | [] => none
  | s :: rest =>
    if s.pref == 0 && strncaseEq s.fmt.p8_name tok tok.length then
      some ({ s with pref := count + 1 } :: rest)
    else
      (markTok tok count rest).map (s :: ·)

/-- The token loop of `vp8_order`: walk the tokens in order, assigning
sequential preferences to first-time matches; the loop stops early once
`NUM_PKCS8_FORMATS` preferences have been assigned. -/
def vp8AssignGo : List ML_DSA_PKCS8_FMT_PREF → Nat → List (List Char) →
    List ML_DSA_PKCS8_FMT_PREF × Nat
  | slots, count, [] => (slots, count)
  | slots, count, t :: ts =>
    if count < NUM_PKCS8_FORMATS then
      match markTok t count slots with
      | some slots' => vp8AssignGo slots' (count + 1) ts
      | none => vp8AssignGo slots count ts
    else (slots, count)

/-- Initial preference slots: the table entries in order, preference 0. -/
def initSlots (table : List ML_DSA_PKCS8_FMT) : List ML_DSA_PKCS8_FMT_PREF :=
  table.map (fun f => ⟨f, 0⟩)

/-- Model of `vp8_order`: with no configuration string, all table entries
in compiled order; otherwise assign preferences from the tokens, fail when
no token matched, and return the matched slots sorted by preference (the
qsort result truncated at the first unselected slot).  `none` models the
NULL return that raises `PROV_R_ML_DSA_NO_FORMAT`. -/
def vp8_order (table : List ML_DSA_PKCS8_FMT) (formats : Option (List Char)) :
    Option (List ML_DSA_PKCS8_FMT_PREF) :=
  match formats with
  | none => some (initSlots table)
  | some cfg =>
    if (vp8AssignGo (initSlots table) 0 (tokenize cfg)).2 = 0 then none
    else some ((List.insertionSort prefLE
      (vp8AssignGo (initSlots table) 0 (tokenize cfg)).1).take
      (vp8AssignGo (initSlots table) 0 (tokenize cfg)).2)

/-- Errors surfaced by the private-key decoder.  `shortInput` models the
silent failure (`goto end` with no error raised) when the payload is
shorter than the four bytes needed to read the leading magic word;
`badEncoding` models the silent structural-validation failures after a
format was accepted. -/
inductive DecodeError
  | noFormatEnabled
  | unexpectedParams
  | shortInput
  | badEncoding
deriving DecidableEq

/-- Seed/private material extracted by a successful private-key decode. -/
structure DecodedMaterial where
  seed : Option (List Nat)
  priv : Option (List Nat)
deriving DecidableEq

/-- The length-plus-magic acceptance test applied to one candidate format
in the slot-matching loop of `ossl_ml_dsa_d2i_PKCS8`. -/
def p8_accept (len magic : Nat) (f : ML_DSA_PKCS8_FMT) : Bool :=
  len == f.p8_bytes &&
    (f.p8_shift == 4 || magic >>> (f.p8_shift * 8) == f.p8_magic)

/-- The slot-matching loop of `ossl_ml_dsa_d2i_PKCS8`: first enabled
candidate accepted by `p8_accept`. -/
def findAccepted (slots : List ML_DSA_PKCS8_FMT_PREF) (len magic : Nat) :
    Option ML_DSA_PKCS8_FMT :=
  (slots.find? (fun s => p8_accept len magic s.fmt)).map (·.fmt)

/-- Read-cursor position right after a candidate is accepted: the C code
computes `pos = buf + 4` by loading the magic word and then subtracts
`p8_shift` on acceptance. -/
def cursorStart (f : ML_DSA_PKCS8_FMT) : Nat := 4 - f.p8_shift

/-- The declared-length cross-check against the parameter set's fixed sizes
applied to an accepted (decode) or selected (encode) format. -/
def lenMismatch (v : ML_DSA_PARAMS) (f : ML_DSA_PKCS8_FMT) : Prop :=
  (0 < f.seed_length ∧ f.seed_length ≠ ML_DSA_SEED_BYTES)
  ∨ (0 < f.priv_length ∧ f.priv_length ≠ v.sk_len)
  ∨ (0 < f.pub_length ∧ f.pub_length ≠ v.pk_len)

instance (v : ML_DSA_PARAMS) (f : ML_DSA_PKCS8_FMT) : Decidable (lenMismatch v f) := by
  unfold lenMismatch
  infer_instance

/-- Seed-field validation step of the decoder: either the cursor is two
bytes before `seed_offset` and a standalone 2-byte header equal to
`seed_magic` sits there, or the cursor is exactly at `seed_offset`; then
the cursor advances past the 32 seed bytes. -/
def seedStep (f : ML_DSA_PKCS8_FMT) (buf : List Nat) (pos : Nat) : Option Nat :=
  if 0 < f.seed_length then
    if pos + 2 = f.seed_offset then
      if loadU16BE buf pos = f.seed_magic then some (pos + 2 + ML_DSA_SEED_BYTES)
      else none
    else if pos = f.seed_offset then some (pos + ML_DSA_SEED_BYTES)
    else none
  else some pos

/-- Private-key-field validation step of the decoder, analogous to
`seedStep` with a 4-byte header and `priv_magic`. -/
def privStep (v : ML_DSA_PARAMS) (f : ML_DSA_PKCS8_FMT) (buf : List Nat) (pos : Nat) :
    Option Nat :=
  if 0 < f.priv_length then
    if pos + 4 = f.priv_offset then
      if loadU32BE buf pos = f.priv_magic then some (pos + 4 + v.sk_len)
      else none
    else if pos = f.priv_offset then some (pos + v.sk_len)
    else none
  else some pos

/-- Public-key-field validation step of the decoder: no separate header;
the cursor must already sit at `pub_offset`. -/
def pubStep (v : ML_DSA_PARAMS) (f : ML_DSA_PKCS8_FMT) (pos : Nat) : Option Nat :=
  if 0 < f.pub_length then
    if pos = f.pub_offset then some (pos + v.pk_len) else none
  else some pos

/-- Left-to-right structural validation of the declared fields of an
accepted format, returning the final cursor position. -/
def fieldWalk (v : ML_DSA_PARAMS) (f : ML_DSA_PKCS8_FMT) (buf : List Nat) (pos : Nat) :
    Option Nat :=
  (seedStep f buf pos).bind fun p1 =>
    (privStep v f buf p1).bind fun p2 => pubStep v f p2

/-- Model of `ossl_ml_dsa_d2i_PKCS8` after the generic PKCS#8 envelope has
been peeled: `paramsAbsent` is true when the algorithm identifier carried
no parameters, `formats` is the input-formats configuration string, and
`buf` is the inner private-key payload. -/
def ossl_ml_dsa_d2i_PKCS8 (v : ML_DSA_PARAMS) (table : List ML_DSA_PKCS8_FMT)
    (formats : Option (List Char)) (paramsAbsent : Bool) (buf : List Nat) :
    Except DecodeError DecodedMaterial :=
  match vp8_order table formats with
  | none => .error .noFormatEnabled
  | some slots =>
    if paramsAbsent = false then .error .unexpectedParams
    else if buf.length < 4 then .error .shortInput
    else
      match findAccepted slots buf.length (loadU32BE buf 0) with
      | none => .error .noFormatEnabled
      | some f =>
        if lenMismatch v f then .error .noFormatEnabled
        else
          match fieldWalk v f buf (cursorStart f) with
          | none => .error .badEncoding
          | some pos =>
            if pos = buf.length then
              .ok ⟨if 0 < f.seed_length then
                     some ((buf.drop f.seed_offset).take ML_DSA_SEED_BYTES)
                   else none,
                   if 0 < f.priv_length then
                     some ((buf.drop f.priv_offset).take v.sk_len)
                   else none⟩
            else .error .badEncoding

/-- Key material held by an `ML_DSA_KEY` object as far as this codec reads
it: optional 32-byte seed, optional expanded private key, optional public
key. -/
structure ML_DSA_KeyMaterial where
  seed : Option (List Nat)
  priv : Option (List Nat)
  pub : Option (List Nat)
deriving DecidableEq

/-- Errors surfaced by the encoders.  `internalError` models
`ERR_R_INTERNAL_ERROR` (and the silent final-cursor failure) on
table/cursor inconsistency. -/
inductive EncodeError
  | notAPrivateKey
  | notAPublicKey
  | noFormatEnabled
  | internalError
deriving DecidableEq

/-- Model of `ossl_ml_dsa_i2d_pubkey`: duplicate the raw public-key bytes
(`OPENSSL_memdup(pk, pk_len)`), or fail with `PROV_R_NOT_A_PUBLIC_KEY`
when the key holds no public-key bytes. -/
def ossl_ml_dsa_i2d_pubkey (v : ML_DSA_PARAMS) (key : ML_DSA_KeyMaterial) :
    Except EncodeError (List Nat) :=
  match key.pub with
  | none => .error .notAPublicKey
  | some pk => .ok (pk.take v.pk_len)

/-- Model of `ossl_ml_dsa_d2i_PUBKEY` at this codec's level: succeed only
when the input is exactly the parameter set's SPKI prefix followed by
`pk_len` raw public-key bytes, and yield those raw bytes. -/
def ossl_ml_dsa_d2i_PUBKEY (v : ML_DSA_PARAMS) (spki : List Nat) (pk : List Nat) :
    Option (List Nat) :=
  if pk.length = ML_DSA_SPKI_OVERHEAD + v.pk_len
      ∧ pk.take ML_DSA_SPKI_OVERHEAD = spki then
    some (pk.drop ML_DSA_SPKI_OVERHEAD)
  else none

/-- Outer header emitted by the private-key encoder according to
`p8_shift`: a 4-byte big-endian magic, its low 16 bits, or nothing; any
other shift value is the internal-error default case. -/
def emitHeader (f : ML_DSA_PKCS8_FMT) : Option (List Nat) :=
  if f.p8_shift = 0 then some (storeU32BE f.p8_magic)
  else if f.p8_shift = 2 then some (storeU16BE f.p8_magic)
  else if f.p8_shift = 4 then some []
  else none

/-- Seed-field serialization step of the encoder: emit the standalone
2-byte seed header when the cursor is two bytes short of `seed_offset`,
require the cursor to be exactly at `seed_offset`, then append the seed
bytes.  The cursor is the current output length. -/
def emitSeed (f : ML_DSA_PKCS8_FMT) (seedBytes : List Nat) (out : List Nat) :
    Option (List Nat) :=
  if 0 < f.seed_length then
    let out1 := if out.length + 2 = f.seed_offset then out ++ storeU16BE f.seed_magic
                else out
    if out1.length = f.seed_offset then some (out1 ++ seedBytes) else none
  else some out

/-- Private-key-field serialization step of the encoder, analogous to
`emitSeed` with a 4-byte header. -/
def emitPriv (f : ML_DSA_PKCS8_FMT) (skBytes : List Nat) (out : List Nat) :
    Option (List Nat) :=
  if 0 < f.priv_length then
    let out1 := if out.length + 4 = f.priv_offset then out ++ storeU32BE f.priv_magic
                else out
    if out1.length = f.priv_offset then some (out1 ++ skBytes) else none
  else some out

/-- Public-key-field serialization step of the encoder: never separately
wrapped; the cursor must already be at `pub_offset`. -/
def emitPub (f : ML_DSA_PKCS8_FMT) (pkBytes : List Nat) (out : List Nat) :
    Option (List Nat) :=
  if 0 < f.pub_length then
    if out.length = f.pub_offset then some (out ++ pkBytes) else none
  else some out

/-- Model of `ossl_ml_dsa_i2d_prvkey` (buffer-producing path): require
private-key bytes, resolve the enabled output formats, select the first
candidate that does not declare a seed field when the key has no seed,
cross-check the selected format's declared lengths, then serialize header
and fields; the final cursor must land exactly at `p8_bytes`. -/
def ossl_ml_dsa_i2d_prvkey (v : ML_DSA_PARAMS) (table : List ML_DSA_PKCS8_FMT)
    (formats : Option (List Char)) (key : ML_DSA_KeyMaterial) :
    Except EncodeError (List Nat) :=
  match key.priv with
  | none => .error .notAPrivateKey
  | some sk =>
    match vp8_order table formats with
    | none => .error .noFormatEnabled
    | some slots =>
      match slots.find? (fun s => key.seed.isSome || s.fmt.seed_length == 0) with
      | none => .error .noFormatEnabled
      | some slot =>
        if lenMismatch v slot.fmt then .error .noFormatEnabled
        else
          match emitHeader slot.fmt with
          | none => .error .internalError
          | some hdr =>
            match (emitSeed slot.fmt (key.seed.getD []) hdr).bind fun o1 =>
                    (emitPriv slot.fmt sk o1).bind fun o2 =>
                      emitPub slot.fmt (key.pub.getD []) o2 with
            | none => .error .internalError
            | some out =>
              if out.length = slot.fmt.p8_bytes then .ok out
              else .error .internalError

/-- Composition of private-key encode (with `fmtName` as the only enabled
output format) and private-key decode (default input formats): the
round-trip probed by the testable properties of the spec. -/
def roundTrip (v : ML_DSA_PARAMS) (table : List ML_DSA_PKCS8_FMT)
    (fmtName : List Char) (key : ML_DSA_KeyMaterial) : Option DecodedMaterial :=
  match ossl_ml_dsa_i2d_prvkey v table (some fmtName) key with
  | .error _ => none
  | .ok payload =>
    match ossl_ml_dsa_d2i_PKCS8 v table none true payload with
    | .error _ => none
    | .ok m => some m

/-- A preference slot counts as selected when its preference is nonzero. -/
def selected (s : ML_DSA_PKCS8_FMT_PREF) : Bool := decide (0 < s.pref)

/-- Strict version of the `pref_cmp` order: also requires the preferences
to differ.  On the selected slots of one run the preferences are pairwise
distinct, so the sorted selected slots are sorted for this relation. -/
def prefLT (a b : ML_DSA_PKCS8_FMT_PREF) : Prop := prefLE a b ∧ a.pref ≠ b.pref

/-- Invariant of the `vp8_order` token loop: every preference is at most
`count`, the selected slots carry pairwise distinct preferences, and
exactly `count` slots are selected. -/
def AssignInv (slots : List ML_DSA_PKCS8_FMT_PREF) (count : Nat) : Prop :=
  (∀ s ∈ slots, s.pref ≤ count)
  ∧ ((slots.filter selected).map (·.pref)).Nodup
  ∧ (slots.filter selected).length = count

/-- Configuration string of the spec's resolver scenario. -/
def cfg_c5 : List Char := "bare-seed,unknown,priv-only".data

/-- Configuration string consisting of the single token "seed". -/
def cfg_seed : List Char := "seed".data

/-- Configuration string consisting of the single token "priv". -/
def cfg_priv : List Char := "priv".data

/-- Well-formed seed-priv payload for ML-DSA-44: outer SEQUENCE header,
2-byte seed header, 32 seed bytes, 4-byte private-key header, 2560
private-key bytes. -/
def sp44_payload (seed priv : List Nat) : List Nat :=
  [0x30, 0x82, 0x0a, 0x26, 0x04, 0x20] ++ (seed ++ ([0x04, 0x82, 0x0a, 0x00] ++ priv))

/-- Concrete 32-byte seed used in counterexamples. -/
def seed_c : List Nat := List.replicate 32 0x11

/-- Concrete 2560-byte ML-DSA-44 private key used in counterexamples. -/
def priv44_c : List Nat := List.replicate 2560 0x22

/-- Concrete well-formed ML-DSA-44 seed-priv payload. -/
def sp44_c : List Nat := sp44_payload seed_c priv44_c

/-- Well-formed seed-priv payload for ML-DSA-65. -/
def sp65_payload (seed priv : List Nat) : List Nat :=
  [0x30, 0x82, 0x0f, 0xe6, 0x04, 0x20] ++ (seed ++ ([0x04, 0x82, 0x0f, 0xc0] ++ priv))

/-- Well-formed seed-priv payload for ML-DSA-87. -/
def sp87_payload (seed priv : List Nat) : List Nat :=
  [0x30, 0x82, 0x13, 0x46, 0x04, 0x20] ++ (seed ++ ([0x04, 0x82, 0x13, 0x20] ++ priv))

/-- Well-formed seed-only payload (the same for every variant): 2-byte
header 0x80 0x20 followed by the 32 seed bytes. -/
def so_payload (seed : List Nat) : List Nat := [0x80, 0x20] ++ seed

/-- A format's declared seed/priv/pub lengths agree with the parameter
set's fixed sizes (the complement of the `lenMismatch` check, used to
state the spec's description of the encoder's candidate walk). -/
def lengthsMatch (v : ML_DSA_PARAMS) (f : ML_DSA_PKCS8_FMT) : Bool :=
  !(decide (lenMismatch v f))

/-- One possible qsort output for the ML-DSA-44 table under the
configuration "bare-seed,unknown,priv-only": the selected slots in
preference order followed by the unselected slots in some arbitrary
order. -/
def c7_l2 : List ML_DSA_PKCS8_FMT_PREF :=
  [⟨ml_dsa_44_fmt_bare_seed, 1⟩, ⟨ml_dsa_44_fmt_priv_only, 2⟩,
   ⟨ml_dsa_44_fmt_bare_priv, 0⟩, ⟨ml_dsa_44_fmt_seed_only, 0⟩,
   ⟨ml_dsa_44_fmt_oqskeypair, 0⟩, ⟨ml_dsa_44_fmt_seed_priv, 0⟩]

/-- Folding the big-endian accumulator over `l` from `acc` scales `acc` by
`256 ^ l.length` and adds the value of `l`. -/
theorem beVal_go (l : List Nat) (acc : Nat) :
    l.foldl (fun a b => a * 256 + b % 256) acc = acc * 256 ^ l.length + beVal l := by
  induction l generalizing acc with
  | nil => simp [beVal]
  | cons b t ih =>
    have hb : beVal (b :: t) = (b % 256) * 256 ^ t.length + beVal t := by
      unfold beVal
      simpa using ih (b % 256)
    simp only [List.foldl_cons, List.length_cons, hb, ih (acc * 256 + b % 256)]
    ring

/-- Big-endian value of a concatenation. -/
theorem beVal_append (l1 l2 : List Nat) :
    beVal (l1 ++ l2) = beVal l1 * 256 ^ l2.length + beVal l2 := by
  unfold beVal
  rw [List.foldl_append]
  exact beVal_go l2 _

/-- The big-endian value of a byte list is below `256 ^ length`. -/
theorem beVal_lt (l : List Nat) : beVal l < 256 ^ l.length := by
  induction l with
  | nil => simp [beVal]
  | cons b t ih =>
    have hb : beVal (b :: t) = (b % 256) * 256 ^ t.length + beVal t := by
      unfold beVal
      simpa using beVal_go t (b % 256)
    have hmod : b % 256 ≤ 255 := Nat.le_of_lt_succ (Nat.mod_lt _ (by norm_num))
    calc beVal (b :: t) = (b % 256) * 256 ^ t.length + beVal t := hb
      _ < (b % 256) * 256 ^ t.length + 256 ^ t.length := Nat.add_lt_add_left ih _
      _ = (b % 256 + 1) * 256 ^ t.length := by ring
      _ ≤ 256 * 256 ^ t.length := Nat.mul_le_mul_right _ (by omega)
      _ = 256 ^ (b :: t).length := by rw [List.length_cons]; ring

/-- `find?` only depends on the predicate's values on the list. -/
theorem find?_congrOn {α : Type} (p q : α → Bool) :
    ∀ l : List α, (∀ a ∈ l, p a = q a) → l.find? p = l.find? q := by
  intro l
  induction l with
  | nil => intro _; rfl
  | cons a t ih =>
    intro h
    have ha := h a (List.mem_cons_self a t)
    by_cases hp : p a = true
    · rw [List.find?_cons_of_pos _ hp, List.find?_cons_of_pos _ (ha ▸ hp)]
    · rw [List.find?_cons_of_neg _ hp, List.find?_cons_of_neg _ (ha ▸ hp),
        ih (fun b hb => h b (List.mem_cons_of_mem a hb))]

/-- When all hits of `p` agree under `g`, the image under `g` of the first
hit is invariant under permutation of the list. -/
theorem find?_map_perm {α β : Type} (p : α → Bool) (g : α → β)
    {l1 l2 : List α} (hperm : l1.Perm l2)
    (huniq : ∀ a ∈ l1, ∀ b ∈ l1, p a = true → p b = true → g a = g b) :
    (l1.find? p).map g = (l2.find? p).map g := by
  cases h1 : l1.find? p with
  | none =>
    have hall := List.find?_eq_none.mp h1
    have : l2.find? p = none :=
      List.find?_eq_none.mpr (fun x hx => hall x (hperm.mem_iff.mpr hx))
    rw [this]
  | some a =>
    have hpa := List.find?_some h1
    have hma := List.mem_of_find?_eq_some h1
    cases h2 : l2.find? p with
    | none =>
      exact absurd (List.find?_eq_none.mp h2 a (hperm.mem_iff.mp hma)) (by simp [hpa])
    | some b =>
      have hpb := List.find?_some h2
      have hmb : b ∈ l1 := hperm.mem_iff.mpr (List.mem_of_find?_eq_some h2)
      have := huniq a hma b hmb hpa hpb
      simp [this]

/-- Decomposition of a successful `markTok` step: exactly one slot, the
first unselected one whose name matches the token, has its preference set
to `count + 1`; all other slots are untouched. -/
theorem markTok_eq_some {tok : List Char} {count : Nat} :
    ∀ {slots slots' : List ML_DSA_PKCS8_FMT_PREF},
      markTok tok count slots = some slots' →
      ∃ pre s post, slots = pre ++ s :: post ∧ s.pref = 0 ∧
        strncaseEq s.fmt.p8_name tok tok.length = true ∧
        slots' = pre ++ { s with pref := count + 1 } :: post := by
  intro slots
  induction slots with
  | nil => intro slots' h; simp [markTok] at h
  | cons s rest ih =>
    intro slots' h
    unfold markTok at h
    by_cases hc : (s.pref == 0 && strncaseEq s.fmt.p8_name tok tok.length) = true
    · rw [if_pos hc] at h
      have h12 : s.pref = 0 ∧ strncaseEq s.fmt.p8_name tok tok.length = true := by
        simpa using hc
      exact ⟨[], s, rest, by simp, h12.1, h12.2, by simpa using h.symm⟩
    · rw [if_neg hc] at h
      obtain ⟨rest', hrest, hs⟩ := Option.map_eq_some'.mp h
      obtain ⟨pre, s0, post, he, hp, hm, he'⟩ := ih hrest
      exact ⟨s :: pre, s0, post, by simp [he], hp, hm, by simp [he', hs.symm]⟩

/-- A `markTok` step fails exactly when no unselected slot's name matches
the token. -/
theorem markTok_eq_none {tok : List Char} {count : Nat} :
    ∀ {slots : List ML_DSA_PKCS8_FMT_PREF},
      markTok tok count slots = none ↔
        ∀ s ∈ slots, ¬(s.pref = 0 ∧ strncaseEq s.fmt.p8_name tok tok.length = true) := by
  intro slots
  induction slots with
  | nil => simp [markTok]
  | cons s rest ih =>
    unfold markTok
    by_cases hc : (s.pref == 0 && strncaseEq s.fmt.p8_name tok tok.length) = true
    · rw [if_pos hc]
      have h12 : s.pref = 0 ∧ strncaseEq s.fmt.p8_name tok tok.length = true := by
        simpa using hc
      constructor
      · intro h
        cases h
      · intro h
        exact ((h s (List.mem_cons_self s rest)) h12).elim
    · rw [if_neg hc]
      have hc' : ¬(s.pref = 0 ∧ strncaseEq s.fmt.p8_name tok tok.length = true) := by
        intro ⟨hp, hm⟩
        exact hc (by simp [hp, hm])
      constructor
      · intro h x hx
        rcases List.mem_cons.mp hx with rfl | hx
        · exact hc'
        · exact (ih.mp (Option.map_eq_none'.mp h)) x hx
      · intro h
        rw [Option.map_eq_none']
        exact ih.mpr (fun x hx => h x (List.mem_cons_of_mem _ hx))

/-- `markTok` does not change the underlying format sequence. -/
theorem markTok_map_fmt {tok : List Char} {count : Nat}
    {slots slots' : List ML_DSA_PKCS8_FMT_PREF}
    (h : markTok tok count slots = some slots') :
    slots'.map (·.fmt) = slots.map (·.fmt) := by
  obtain ⟨pre, s, post, he, _, _, he'⟩ := markTok_eq_some h
  subst he he'
  simp

/-- A successful `markTok` step preserves the token-loop invariant,
advancing the count. -/
theorem AssignInv.step {tok : List Char} {count : Nat}
    {slots slots' : List ML_DSA_PKCS8_FMT_PREF}
    (h : markTok tok count slots = some slots')
    (inv : AssignInv slots count) : AssignInv slots' (count + 1) := by
  obtain ⟨pre, s, post, he, hp, _, he'⟩ := markTok_eq_some h
  obtain ⟨hbound, hnodup, hlen⟩ := inv
  subst he he'
  have hsel : selected s = false := by simp [selected, hp]
  have hsel' : selected { s with pref := count + 1 } = true := by simp [selected]
  have hfilter : (pre ++ s :: post).filter selected =
      pre.filter selected ++ post.filter selected := by
    simp [List.filter_append, List.filter_cons, hsel]
  have hfilter' : (pre ++ { s with pref := count + 1 } :: post).filter selected =
      pre.filter selected ++ { s with pref := count + 1 } :: post.filter selected := by
    simp [List.filter_append, List.filter_cons, hsel']
  refine ⟨?_, ?_, ?_⟩
  · intro x hx
    rcases List.mem_append.mp hx with hx | hx
    · exact Nat.le_succ_of_le (hbound x (by simp [hx]))
    · rcases List.mem_cons.mp hx with rfl | hx
      · simp
      · exact Nat.le_succ_of_le (hbound x (by simp [hx]))
  · rw [hfilter']
    rw [hfilter] at hnodup
    simp only [List.map_append, List.map_cons]
    rw [List.nodup_middle]
    refine List.Nodup.cons ?_ (by simpa using hnodup)
    intro hmem
    rw [← List.map_append] at hmem
    obtain ⟨x, hx, hxp⟩ := List.mem_map.mp hmem
    have hxs : x ∈ pre ++ s :: post := by
      rcases List.mem_append.mp hx with h1 | h1
      · exact List.mem_append.mpr (Or.inl (List.mem_of_mem_filter h1))
      · exact List.mem_append.mpr
          (Or.inr (List.mem_cons_of_mem _ (List.mem_of_mem_filter h1)))
    have hb := hbound x hxs
    have hxp' : x.pref = count + 1 := hxp
    omega
  · rw [hfilter']
    rw [hfilter] at hlen
    simp only [List.length_append, List.length_cons] at *
    omega

/-- The freshly initialized slots satisfy the token-loop invariant with
count 0. -/
theorem AssignInv.init (table : List ML_DSA_PKCS8_FMT) :
    AssignInv (initSlots table) 0 := by
  have hall : ∀ s ∈ initSlots table, s.pref = 0 := by
    intro s hs
    obtain ⟨f, _, rfl⟩ := List.mem_map.mp hs
    rfl
  have hnil : (initSlots table).filter selected = [] :=
    List.filter_eq_nil_iff.mpr (fun s hs => by simp [selected, hall s hs])
  exact ⟨fun s hs => Nat.le_of_eq (hall s hs), by simp [hnil], by simp [hnil]⟩

/-- The token loop preserves the invariant. -/
theorem vp8AssignGo_inv :
    ∀ (toks : List (List Char)) (slots : List ML_DSA_PKCS8_FMT_PREF) (count : Nat),
      AssignInv slots count →
      AssignInv (vp8AssignGo slots count toks).1 (vp8AssignGo slots count toks).2 := by
  intro toks
  induction toks with
  | nil => intro slots count inv; exact inv
  | cons t ts ih =>
    intro slots count inv
    unfold vp8AssignGo
    by_cases hlt : count < NUM_PKCS8_FORMATS
    · rw [if_pos hlt]
      cases hm : markTok t count slots with
      | some slots' => exact ih slots' (count + 1) (inv.step hm)
      | none => exact ih slots count inv
    · rw [if_neg hlt]
      exact inv

/-- The token loop does not change the underlying format sequence. -/
theorem vp8AssignGo_map_fmt :
    ∀ (toks : List (List Char)) (slots : List ML_DSA_PKCS8_FMT_PREF) (count : Nat),
      ((vp8AssignGo slots count toks).1).map (·.fmt) = slots.map (·.fmt) := by
  intro toks
  induction toks with
  | nil => intro slots count; rfl
  | cons t ts ih =>
    intro slots count
    unfold vp8AssignGo
    by_cases hlt : count < NUM_PKCS8_FORMATS
    · rw [if_pos hlt]
      cases hm : markTok t count slots with
      | some slots' => rw [ih slots' (count + 1), markTok_map_fmt hm]
      | none => exact ih slots count
    · rw [if_neg hlt]

/-- The token loop never decreases the count. -/
theorem vp8AssignGo_count_le :
    ∀ (toks : List (List Char)) (slots : List ML_DSA_PKCS8_FMT_PREF) (count : Nat),
      count ≤ (vp8AssignGo slots count toks).2 := by
  intro toks
  induction toks with
  | nil => intro slots count; exact Nat.le_refl _
  | cons t ts ih =>
    intro slots count
    unfold vp8AssignGo
    by_cases hlt : count < NUM_PKCS8_FORMATS
    · rw [if_pos hlt]
      cases hm : markTok t count slots with
      | some slots' => exact Nat.le_trans (Nat.le_succ _) (ih slots' (count + 1))
      | none => exact ih slots count
    · rw [if_neg hlt]

/-- Starting from count 0, the token loop ends with count 0 exactly when
every token fails to match any unselected slot. -/
theorem vp8AssignGo_count_zero :
    ∀ (toks : List (List Char)) (slots : List ML_DSA_PKCS8_FMT_PREF),
      (vp8AssignGo slots 0 toks).2 = 0 ↔ ∀ t ∈ toks, markTok t 0 slots = none := by
  intro toks
  induction toks with
  | nil => intro slots; simp [vp8AssignGo]
  | cons t ts ih =>
    intro slots
    unfold vp8AssignGo
    rw [if_pos (by norm_num [NUM_PKCS8_FORMATS])]
    cases hm : markTok t 0 slots with
    | some slots' =>
      have hle := vp8AssignGo_count_le ts slots' (0 + 1)
      constructor
      · intro h
        exfalso
        rw [h] at hle
        exact absurd hle (by norm_num)
      · intro h
        exact absurd (h t (List.mem_cons_self t ts)) (by simp [hm])
    | none =>
      rw [ih slots]
      constructor
      · intro h s hs
        rcases List.mem_cons.mp hs with rfl | hs
        · exact hm
        · exact h s hs
      · intro h s hs
        exact h s (List.mem_cons_of_mem _ hs)

/-- Below an unselected slot in the `pref_cmp` order, every slot is
unselected: zero preferences sort last. -/
theorem prefLE_zero {a x : ML_DSA_PKCS8_FMT_PREF} (ha : a.pref = 0)
    (h : prefLE a x) : x.pref = 0 := by
  unfold prefLE pref_cmp at h
  split_ifs at h <;> omega

instance : IsAntisymm ML_DSA_PKCS8_FMT_PREF prefLT := by
  constructor
  intro a b hab hba
  exfalso
  obtain ⟨h1, hne⟩ := hab
  obtain ⟨h2, _⟩ := hba
  unfold prefLE pref_cmp at h1 h2
  split_ifs at h1 h2 <;> omega

/-- In a list sorted by the qsort comparator, the selected slots form a
prefix whose length is the number of selected slots: truncating the sorted
array at the count yields exactly the selected slots. -/
theorem sorted_take_filter :
    ∀ {l : List ML_DSA_PKCS8_FMT_PREF}, l.Sorted prefLE →
      l.take (l.filter selected).length = l.filter selected := by
  intro l
  induction l with
  | nil => intro _; rfl
  | cons a t ih =>
    intro hs
    have hrel := List.rel_of_sorted_cons hs
    have ht : t.Sorted prefLE := (List.sorted_cons.mp hs).2
    by_cases ha : selected a = true
    · rw [List.filter_cons, if_pos ha, List.length_cons, List.take_succ_cons, ih ht]
    · have ha0 : a.pref = 0 := by
        revert ha
        simp [selected]
      have htnil : t.filter selected = [] := by
        refine List.filter_eq_nil_iff.mpr (fun x hx => ?_)
        simp [selected, prefLE_zero ha0 (hrel x hx)]
      rw [List.filter_cons, if_neg ha, htnil]
      rfl

/-- Core determinism property behind `vp8_order`: for a slot list whose
selected slots have pairwise distinct preferences, every sorted
permutation agrees on its first `count` entries, where `count` is the
number of selected slots.  This is independent of the sorting algorithm:
qsort may order the zero-preference tail arbitrarily, but the truncated
result is unique. -/
theorem sorted_perm_take_eq {slots l1 l2 : List ML_DSA_PKCS8_FMT_PREF}
    (hnd : ((slots.filter selected).map (·.pref)).Nodup)
    (h1p : l1.Perm slots) (h1s : l1.Sorted prefLE)
    (h2p : l2.Perm slots) (h2s : l2.Sorted prefLE) :
    l1.take (slots.filter selected).length = l2.take (slots.filter selected).length := by
  have sortedLT : ∀ {l : List ML_DSA_PKCS8_FMT_PREF}, l.Perm slots → l.Sorted prefLE →
      (l.filter selected).Sorted prefLT := by
    intro l hp hs
    have hle : (l.filter selected).Pairwise prefLE :=
      List.Pairwise.sublist (List.filter_sublist l) hs
    have hndl : ((l.filter selected).map (·.pref)).Nodup :=
      (((hp.filter selected).map (·.pref)).nodup_iff).mpr hnd
    have hne : (l.filter selected).Pairwise (fun a b => a.pref ≠ b.pref) :=
      List.pairwise_map.mp hndl
    exact (hle.and hne).imp (fun h => h)
  have hf1 : (l1.filter selected).Perm (slots.filter selected) := h1p.filter selected
  have hf2 : (l2.filter selected).Perm (slots.filter selected) := h2p.filter selected
  have heq : l1.filter selected = l2.filter selected :=
    List.eq_of_perm_of_sorted (hf1.trans hf2.symm) (sortedLT h1p h1s) (sortedLT h2p h2s)
  calc l1.take (slots.filter selected).length
      = l1.take (l1.filter selected).length := by rw [hf1.length_eq]
    _ = l1.filter selected := sorted_take_filter h1s
    _ = l2.filter selected := heq
    _ = l2.take (l2.filter selected).length := (sorted_take_filter h2s).symm
    _ = l2.take (slots.filter selected).length := by rw [hf2.length_eq]

/-- Characterization of a successful `vp8_order` run with a configuration
string: the result is a permutation of the selected slots of the token
loop, strictly sorted by assigned preference. -/
theorem vp8_order_spec {table : List ML_DSA_PKCS8_FMT} {cfg : List Char}
    {slots : List ML_DSA_PKCS8_FMT_PREF}
    (h : vp8_order table (some cfg) = some slots) :
    slots.Perm
      (((vp8AssignGo (initSlots table) 0 (tokenize cfg)).1).filter selected)
    ∧ slots.Sorted prefLT := by
  simp only [vp8_order] at h
  by_cases hc : (vp8AssignGo (initSlots table) 0 (tokenize cfg)).2 = 0
  · rw [if_pos hc] at h
    cases h
  · rw [if_neg hc] at h
    have hslots := (Option.some.inj h).symm
    set A := (vp8AssignGo (initSlots table) 0 (tokenize cfg)).1 with hA
    set c := (vp8AssignGo (initSlots table) 0 (tokenize cfg)).2 with hc2
    have inv := vp8AssignGo_inv (tokenize cfg) (initSlots table) 0 (AssignInv.init table)
    have hcount : (A.filter selected).length = c := inv.2.2
    have hperm : (List.insertionSort prefLE A).Perm A := List.perm_insertionSort prefLE A
    have hsorted : (List.insertionSort prefLE A).Sorted prefLE :=
      List.sorted_insertionSort prefLE A
    have hpermf : ((List.insertionSort prefLE A).filter selected).Perm (A.filter selected) :=
      hperm.filter selected
    have htake : (List.insertionSort prefLE A).take c =
        (List.insertionSort prefLE A).filter selected := by
      rw [← hcount, ← hpermf.length_eq]
      exact sorted_take_filter hsorted
    constructor
    · rw [hslots, htake]
      exact hpermf
    · rw [hslots, htake]
      have hle : ((List.insertionSort prefLE A).filter selected).Pairwise prefLE :=
        List.Pairwise.sublist (List.filter_sublist _) hsorted
      have hndA : ((A.filter selected).map (·.pref)).Nodup := inv.2.1
      have hndl : (((List.insertionSort prefLE A).filter selected).map (·.pref)).Nodup :=
        ((hpermf.map (·.pref)).nodup_iff).mpr hndA
      have hne : ((List.insertionSort prefLE A).filter selected).Pairwise
          (fun a b => a.pref ≠ b.pref) := List.pairwise_map.mp hndl
      exact (hle.and hne).imp (fun h => h)

/-- The initial slots project back to the table. -/
theorem initSlots_map_fmt (table : List ML_DSA_PKCS8_FMT) :
    (initSlots table).map (·.fmt) = table := by
  unfold initSlots
  induction table with
  | nil => rfl
  | cons f t ih => simpa using ih

/-- Every slot returned by `vp8_order` carries a format from the table. -/
theorem vp8_order_fmt_mem {table : List ML_DSA_PKCS8_FMT}
    {formats : Option (List Char)} {slots : List ML_DSA_PKCS8_FMT_PREF}
    {s : ML_DSA_PKCS8_FMT_PREF}
    (h : vp8_order table formats = some slots) (hs : s ∈ slots) : s.fmt ∈ table := by
  have key : ∀ {l : List ML_DSA_PKCS8_FMT_PREF}, s ∈ l →
      l.map (·.fmt) = table → s.fmt ∈ table := by
    intro l hl he
    rw [← he]
    exact List.mem_map_of_mem _ hl
  cases formats with
  | none =>
    have hslots : slots = initSlots table := (Option.some.inj h).symm
    exact key (hslots ▸ hs) (initSlots_map_fmt table)
  | some cfg =>
    simp only [vp8_order] at h
    by_cases hc : (vp8AssignGo (initSlots table) 0 (tokenize cfg)).2 = 0
    · rw [if_pos hc] at h
      cases h
    · rw [if_neg hc] at h
      have hslots := (Option.some.inj h).symm
      have hmem : s ∈ (vp8AssignGo (initSlots table) 0 (tokenize cfg)).1 :=
        (List.perm_insertionSort prefLE _).mem_iff.mp
          (List.mem_of_mem_take (hslots ▸ hs))
      refine key hmem ?_
      rw [vp8AssignGo_map_fmt]
      exact initSlots_map_fmt table

/-- The `strncasecmp`-based token test is exactly case-insensitive prefix
matching: comparing a NUL-free name against a token over the token's
length succeeds iff the token is no longer than the name and lower-cases
to the name's first characters. -/
theorem strncaseEq_iff :
    ∀ (tok name : List Char),
      strncaseEq name tok tok.length = true ↔
        tok.length ≤ name.length ∧
          (name.take tok.length).map lowerC = tok.map lowerC := by
  intro tok
  induction tok with
  | nil => intro name; simp [strncaseEq]
  | cons b bs ih =>
    intro name
    cases name with
    | nil => simp [strncaseEq]
    | cons a as =>
      simp only [strncaseEq, List.length_cons, Bool.and_eq_true, beq_iff_eq,
        List.take_succ_cons, List.map_cons, List.cons.injEq]
      rw [ih as]
      constructor
      · intro ⟨h1, h2, h3⟩
        exact ⟨Nat.succ_le_succ h2, h1, h3⟩
      · intro ⟨h1, h2, h3⟩
        exact ⟨h2, Nat.le_of_succ_le_succ h1, h3⟩

/-- Decoding a well-formed ML-DSA-44 seed-priv payload under the default
input-format configuration recovers exactly the seed and the expanded
private key. -/
theorem d2i_seed_priv_44 (seed priv : List Nat) (hs : seed.length = 32)
    (hp : priv.length = 2560) :
    ossl_ml_dsa_d2i_PKCS8 ml_dsa_44_params ml_dsa_44_p8fmt none true
        (sp44_payload seed priv)
      = .ok ⟨some seed, some priv⟩ := by
  have hlen : (sp44_payload seed priv).length = 2602 := by
    simp [sp44_payload, hs, hp]
  have hmagic : loadU32BE (sp44_payload seed priv) 0 = 0x30820a26 := by
    simp [sp44_payload, loadU32BE, beVal]
  have hfind : findAccepted (initSlots ml_dsa_44_p8fmt) 2602 0x30820a26
      = some ml_dsa_44_fmt_seed_priv := by decide
  have hre6 : (sp44_payload seed priv).drop 6 =
      seed ++ ([0x04, 0x82, 0x0a, 0x00] ++ priv) := by
    unfold sp44_payload
    rw [List.drop_left' (by simp)]
  have hre38 : (sp44_payload seed priv).drop 38 = [0x04, 0x82, 0x0a, 0x00] ++ priv := by
    have hre : sp44_payload seed priv =
        ([0x30, 0x82, 0x0a, 0x26, 0x04, 0x20] ++ seed) ++
          ([0x04, 0x82, 0x0a, 0x00] ++ priv) := by
      simp [sp44_payload]
    rw [hre, List.drop_left' (by simp [hs])]
  have hre42 : (sp44_payload seed priv).drop 42 = priv := by
    have hre : sp44_payload seed priv =
        (([0x30, 0x82, 0x0a, 0x26, 0x04, 0x20] ++ seed) ++ [0x04, 0x82, 0x0a, 0x00]) ++
          priv := by
      simp [sp44_payload]
    rw [hre, List.drop_left' (by simp [hs])]
  have hl16 : loadU16BE (sp44_payload seed priv) 4 = 0x0420 := by
    simp [sp44_payload, loadU16BE, beVal]
  have hl32p : loadU32BE (sp44_payload seed priv) 38 = 0x04820a00 := by
    rw [loadU32BE, hre38]
    simp [beVal]
  have hwalk : fieldWalk ml_dsa_44_params ml_dsa_44_fmt_seed_priv (sp44_payload seed priv)
      (cursorStart ml_dsa_44_fmt_seed_priv) = some 2602 := by
    simp [fieldWalk, seedStep, privStep, pubStep, cursorStart,
      ml_dsa_44_fmt_seed_priv, ml_dsa_44_params, hl16, hl32p, ML_DSA_SEED_BYTES]
  have hlm : ¬ lenMismatch ml_dsa_44_params ml_dsa_44_fmt_seed_priv := by decide
  have hseed : ((sp44_payload seed priv).drop 6).take 32 = seed := by
    rw [hre6, List.take_left' hs]
  have hpriv : ((sp44_payload seed priv).drop 42).take 2560 = priv := by
    rw [hre42, ← hp, List.take_length]
  simp only [ossl_ml_dsa_d2i_PKCS8, vp8_order, hlen, hmagic, hfind, hwalk, hlm]
  norm_num [ml_dsa_44_fmt_seed_priv, ML_DSA_SEED_BYTES, ml_dsa_44_params, hseed, hpriv]

/-- Encoding an ML-DSA-44 key that has both seed and private bytes with
"seed-priv" as the only enabled output format produces the canonical
seed-priv payload. -/
theorem i2d_seed_priv_44 (seed priv : List Nat) (pub : Option (List Nat))
    (hs : seed.length = 32) (hp : priv.length = 2560) :
    ossl_ml_dsa_i2d_prvkey ml_dsa_44_params ml_dsa_44_p8fmt (some nm_seed_priv)
        ⟨some seed, some priv, pub⟩
      = .ok (sp44_payload seed priv) := by
  have hvp8 : vp8_order ml_dsa_44_p8fmt (some nm_seed_priv)
      = some [⟨ml_dsa_44_fmt_seed_priv, 1⟩] := by decide
  have hlm : ¬ lenMismatch ml_dsa_44_params ml_dsa_44_fmt_seed_priv := by decide
  simp only [ossl_ml_dsa_i2d_prvkey, hvp8]
  norm_num [List.find?, emitHeader, emitSeed, emitPriv, emitPub, storeU32BE, storeU16BE,
    ml_dsa_44_fmt_seed_priv, hlm, ML_DSA_SEED_BYTES, List.length_append, hs, hp,
    sp44_payload, ml_dsa_44_params]
  exact fun h => absurd h (by decide)

/-- Decoding a well-formed ML-DSA-65 seed-priv payload under the default
input-format configuration recovers exactly the seed and the expanded
private key. -/
theorem d2i_seed_priv_65 (seed priv : List Nat) (hs : seed.length = 32)
    (hp : priv.length = 4032) :
    ossl_ml_dsa_d2i_PKCS8 ml_dsa_65_params ml_dsa_65_p8fmt none true
        (sp65_payload seed priv)
      = .ok ⟨some seed, some priv⟩ := by
  have hlen : (sp65_payload seed priv).length = 4074 := by
    simp [sp65_payload, hs, hp]
  have hmagic : loadU32BE (sp65_payload seed priv) 0 = 0x30820fe6 := by
    simp [sp65_payload, loadU32BE, beVal]
  have hfind : findAccepted (initSlots ml_dsa_65_p8fmt) 4074 0x30820fe6
      = some ml_dsa_65_fmt_seed_priv := by decide
  have hre6 : (sp65_payload seed priv).drop 6 =
      seed ++ ([0x04, 0x82, 0x0f, 0xc0] ++ priv) := by
    unfold sp65_payload
    rw [List.drop_left' (by simp)]
  have hre38 : (sp65_payload seed priv).drop 38 = [0x04, 0x82, 0x0f, 0xc0] ++ priv := by
    have hre : sp65_payload seed priv =
        ([0x30, 0x82, 0x0f, 0xe6, 0x04, 0x20] ++ seed) ++
          ([0x04, 0x82, 0x0f, 0xc0] ++ priv) := by
      simp [sp65_payload]
    rw [hre, List.drop_left' (by simp [hs])]
  have hre42 : (sp65_payload seed priv).drop 42 = priv := by
    have hre : sp65_payload seed priv =
        (([0x30, 0x82, 0x0f, 0xe6, 0x04, 0x20] ++ seed) ++ [0x04, 0x82, 0x0f, 0xc0]) ++
          priv := by
      simp [sp65_payload]
    rw [hre, List.drop_left' (by simp [hs])]
  have hl16 : loadU16BE (sp65_payload seed priv) 4 = 0x0420 := by
    simp [sp65_payload, loadU16BE, beVal]
  have hl32p : loadU32BE (sp65_payload seed priv) 38 = 0x04820fc0 := by
    rw [loadU32BE, hre38]
    simp [beVal]
  have hwalk : fieldWalk ml_dsa_65_params ml_dsa_65_fmt_seed_priv (sp65_payload seed priv)
      (cursorStart ml_dsa_65_fmt_seed_priv) = some 4074 := by
    simp [fieldWalk, seedStep, privStep, pubStep, cursorStart,
      ml_dsa_65_fmt_seed_priv, ml_dsa_65_params, hl16, hl32p, ML_DSA_SEED_BYTES]
  have hlm : ¬ lenMismatch ml_dsa_65_params ml_dsa_65_fmt_seed_priv := by decide
  have hseed : ((sp65_payload seed priv).drop 6).take 32 = seed := by
    rw [hre6, List.take_left' hs]
  have hpriv : ((sp65_payload seed priv).drop 42).take 4032 = priv := by
    rw [hre42, ← hp, List.take_length]
  simp only [ossl_ml_dsa_d2i_PKCS8, vp8_order, hlen, hmagic, hfind, hwalk, hlm]
  norm_num [ml_dsa_65_fmt_seed_priv, ML_DSA_SEED_BYTES, ml_dsa_65_params, hseed, hpriv]

/-- Decoding a well-formed ML-DSA-87 seed-priv payload under the default
input-format configuration recovers exactly the seed and the expanded
private key. -/
theorem d2i_seed_priv_87 (seed priv : List Nat) (hs : seed.length = 32)
    (hp : priv.length = 4896) :
    ossl_ml_dsa_d2i_PKCS8 ml_dsa_87_params ml_dsa_87_p8fmt none true
        (sp87_payload seed priv)
      = .ok ⟨some seed, some priv⟩ := by
  have hlen : (sp87_payload seed priv).length = 4938 := by
    simp [sp87_payload, hs, hp]
  have hmagic : loadU32BE (sp87_payload seed priv) 0 = 0x30821346 := by
    simp [sp87_payload, loadU32BE, beVal]
  have hfind : findAccepted (initSlots ml_dsa_87_p8fmt) 4938 0x30821346
      = some ml_dsa_87_fmt_seed_priv := by decide
  have hre6 : (sp87_payload seed priv).drop 6 =
      seed ++ ([0x04, 0x82, 0x13, 0x20] ++ priv) := by
    unfold sp87_payload
    rw [List.drop_left' (by simp)]
  have hre38 : (sp87_payload seed priv).drop 38 = [0x04, 0x82, 0x13, 0x20] ++ priv := by
    have hre : sp87_payload seed priv =
        ([0x30, 0x82, 0x13, 0x46, 0x04, 0x20] ++ seed) ++
          ([0x04, 0x82, 0x13, 0x20] ++ priv) := by
      simp [sp87_payload]
    rw [hre, List.drop_left' (by simp [hs])]
  have hre42 : (sp87_payload seed priv).drop 42 = priv := by
    have hre : sp87_payload seed priv =
        (([0x30, 0x82, 0x13, 0x46, 0x04, 0x20] ++ seed) ++ [0x04, 0x82, 0x13, 0x20]) ++
          priv := by
      simp [sp87_payload]
    rw [hre, List.drop_left' (by simp [hs])]
  have hl16 : loadU16BE (sp87_payload seed priv) 4 = 0x0420 := by
    simp [sp87_payload, loadU16BE, beVal]
  have hl32p : loadU32BE (sp87_payload seed priv) 38 = 0x04821320 := by
    rw [loadU32BE, hre38]
    simp [beVal]
  have hwalk : fieldWalk ml_dsa_87_params ml_dsa_87_fmt_seed_priv (sp87_payload seed priv)
      (cursorStart ml_dsa_87_fmt_seed_priv) = some 4938 := by
    simp [fieldWalk, seedStep, privStep, pubStep, cursorStart,
      ml_dsa_87_fmt_seed_priv, ml_dsa_87_params, hl16, hl32p, ML_DSA_SEED_BYTES]
  have hlm : ¬ lenMismatch ml_dsa_87_params ml_dsa_87_fmt_seed_priv := by decide
  have hseed : ((sp87_payload seed priv).drop 6).take 32 = seed := by
    rw [hre6, List.take_left' hs]
  have hpriv : ((sp87_payload seed priv).drop 42).take 4896 = priv := by
    rw [hre42, ← hp, List.take_length]
  simp only [ossl_ml_dsa_d2i_PKCS8, vp8_order, hlen, hmagic, hfind, hwalk, hlm]
  norm_num [ml_dsa_87_fmt_seed_priv, ML_DSA_SEED_BYTES, ml_dsa_87_params, hseed, hpriv]

/-- The leading 32-bit word of a seed-only payload, shifted right by 16,
is the seed-only outer magic, whatever the seed bytes are. -/
theorem so_payload_magic (seed : List Nat) (hs : 2 ≤ seed.length) :
    loadU32BE (so_payload seed) 0 >>> 16 = 0x8020 := by
  have h2 : (seed.take 2).length = 2 := by
    rw [List.length_take]
    omega
  have hlt : beVal (seed.take 2) < 65536 := by
    have := beVal_lt (seed.take 2)
    rw [h2] at this
    norm_num at this
    exact this
  have hval : loadU32BE (so_payload seed) 0 = 0x8020 * 65536 + beVal (seed.take 2) := by
    rw [loadU32BE, so_payload]
    simp only [List.drop_zero, List.cons_append, List.nil_append, List.take_succ_cons]
    unfold beVal
    simp only [List.foldl_cons]
    rw [beVal_go (seed.take 2), h2]
    norm_num
    rfl
  rw [hval, Nat.shiftRight_eq_div_pow]
  norm_num
  omega

/-- Decoding a seed-only payload for ML-DSA-44 under the default input
formats yields the seed and no private key. -/
theorem d2i_seed_only_44 (seed : List Nat) (hs : seed.length = 32) :
    ossl_ml_dsa_d2i_PKCS8 ml_dsa_44_params ml_dsa_44_p8fmt none true (so_payload seed)
      = .ok ⟨some seed, none⟩ := by
  have hlen : (so_payload seed).length = 34 := by
    simp [so_payload, hs]
  have hm := so_payload_magic seed (by omega)
  have hfind : findAccepted (initSlots ml_dsa_44_p8fmt) 34 (loadU32BE (so_payload seed) 0)
      = some ml_dsa_44_fmt_seed_only := by
    rw [findAccepted]
    simp [initSlots, ml_dsa_44_p8fmt, List.find?, p8_accept,
      ml_dsa_44_fmt_seed_priv, ml_dsa_44_fmt_priv_only, ml_dsa_44_fmt_oqskeypair,
      ml_dsa_44_fmt_seed_only, hm]
  have hwalk : fieldWalk ml_dsa_44_params ml_dsa_44_fmt_seed_only (so_payload seed)
      (cursorStart ml_dsa_44_fmt_seed_only) = some 34 := by
    simp [fieldWalk, seedStep, privStep, pubStep, cursorStart,
      ml_dsa_44_fmt_seed_only, ml_dsa_44_params, ML_DSA_SEED_BYTES]
  have hlm : ¬ lenMismatch ml_dsa_44_params ml_dsa_44_fmt_seed_only := by decide
  have hseed : ((so_payload seed).drop 2).take 32 = seed := by
    rw [so_payload, List.drop_left' (by simp), ← hs, List.take_length]
  simp only [ossl_ml_dsa_d2i_PKCS8, vp8_order, hlen, hfind, hwalk, hlm]
  norm_num [ml_dsa_44_fmt_seed_only, ML_DSA_SEED_BYTES, hseed]

/-- Decoding a seed-only payload for ML-DSA-65 under the default input
formats yields the seed and no private key. -/
theorem d2i_seed_only_65 (seed : List Nat) (hs : seed.length = 32) :
    ossl_ml_dsa_d2i_PKCS8 ml_dsa_65_params ml_dsa_65_p8fmt none true (so_payload seed)
      = .ok ⟨some seed, none⟩ := by
  have hlen : (so_payload seed).length = 34 := by
    simp [so_payload, hs]
  have hm := so_payload_magic seed (by omega)
  have hfind : findAccepted (initSlots ml_dsa_65_p8fmt) 34 (loadU32BE (so_payload seed) 0)
      = some ml_dsa_65_fmt_seed_only := by
    rw [findAccepted]
    simp [initSlots, ml_dsa_65_p8fmt, List.find?, p8_accept,
      ml_dsa_65_fmt_seed_priv, ml_dsa_65_fmt_priv_only, ml_dsa_65_fmt_oqskeypair,
      ml_dsa_65_fmt_seed_only, hm]
  have hwalk : fieldWalk ml_dsa_65_params ml_dsa_65_fmt_seed_only (so_payload seed)
      (cursorStart ml_dsa_65_fmt_seed_only) = some 34 := by
    simp [fieldWalk, seedStep, privStep, pubStep, cursorStart,
      ml_dsa_65_fmt_seed_only, ml_dsa_65_params, ML_DSA_SEED_BYTES]
  have hlm : ¬ lenMismatch ml_dsa_65_params ml_dsa_65_fmt_seed_only := by decide
  have hseed : ((so_payload seed).drop 2).take 32 = seed := by
    rw [so_payload, List.drop_left' (by simp), ← hs, List.take_length]
  simp only [ossl_ml_dsa_d2i_PKCS8, vp8_order, hlen, hfind, hwalk, hlm]
  norm_num [ml_dsa_65_fmt_seed_only, ML_DSA_SEED_BYTES, hseed]

/-- Decoding a seed-only payload for ML-DSA-87 under the default input
formats yields the seed and no private key. -/
theorem d2i_seed_only_87 (seed : List Nat) (hs : seed.length = 32) :
    ossl_ml_dsa_d2i_PKCS8 ml_dsa_87_params ml_dsa_87_p8fmt none true (so_payload seed)
      = .ok ⟨some seed, none⟩ := by
  have hlen : (so_payload seed).length = 34 := by
    simp [so_payload, hs]
  have hm := so_payload_magic seed (by omega)
  have hfind : findAccepted (initSlots ml_dsa_87_p8fmt) 34 (loadU32BE (so_payload seed) 0)
      = some ml_dsa_87_fmt_seed_only := by
    rw [findAccepted]
    simp [initSlots, ml_dsa_87_p8fmt, List.find?, p8_accept,
      ml_dsa_87_fmt_seed_priv, ml_dsa_87_fmt_priv_only, ml_dsa_87_fmt_oqskeypair,
      ml_dsa_87_fmt_seed_only, hm]
  have hwalk : fieldWalk ml_dsa_87_params ml_dsa_87_fmt_seed_only (so_payload seed)
      (cursorStart ml_dsa_87_fmt_seed_only) = some 34 := by
    simp [fieldWalk, seedStep, privStep, pubStep, cursorStart,
      ml_dsa_87_fmt_seed_only, ml_dsa_87_params, ML_DSA_SEED_BYTES]
  have hlm : ¬ lenMismatch ml_dsa_87_params ml_dsa_87_fmt_seed_only := by decide
  have hseed : ((so_payload seed).drop 2).take 32 = seed := by
    rw [so_payload, List.drop_left' (by simp), ← hs, List.take_length]
  simp only [ossl_ml_dsa_d2i_PKCS8, vp8_order, hlen, hfind, hwalk, hlm]
  norm_num [ml_dsa_87_fmt_seed_only, ML_DSA_SEED_BYTES, hseed]

/-- Decoding a bare 32-byte seed for ML-DSA-44 under the default input
formats yields the seed and no private key. -/
theorem d2i_bare_seed_44 (seed : List Nat) (hs : seed.length = 32) :
    ossl_ml_dsa_d2i_PKCS8 ml_dsa_44_params ml_dsa_44_p8fmt none true seed
      = .ok ⟨some seed, none⟩ := by
  have hfind : findAccepted (initSlots ml_dsa_44_p8fmt) 32 (loadU32BE seed 0)
      = some ml_dsa_44_fmt_bare_seed := by
    rw [findAccepted]
    simp [initSlots, ml_dsa_44_p8fmt, List.find?, p8_accept,
      ml_dsa_44_fmt_seed_priv, ml_dsa_44_fmt_priv_only, ml_dsa_44_fmt_oqskeypair,
      ml_dsa_44_fmt_seed_only, ml_dsa_44_fmt_bare_priv, ml_dsa_44_fmt_bare_seed]
  have hwalk : fieldWalk ml_dsa_44_params ml_dsa_44_fmt_bare_seed seed
      (cursorStart ml_dsa_44_fmt_bare_seed) = some 32 := by
    simp [fieldWalk, seedStep, privStep, pubStep, cursorStart,
      ml_dsa_44_fmt_bare_seed, ml_dsa_44_params, ML_DSA_SEED_BYTES]
  have hlm : ¬ lenMismatch ml_dsa_44_params ml_dsa_44_fmt_bare_seed := by decide
  have hseed : (seed.drop 0).take 32 = seed := by
    rw [List.drop_zero, ← hs, List.take_length]
  simp only [ossl_ml_dsa_d2i_PKCS8, vp8_order, hs, hfind, hwalk, hlm]
  norm_num [ml_dsa_44_fmt_bare_seed, ML_DSA_SEED_BYTES, hseed]
  omega

/-- Decoding a bare 32-byte seed for ML-DSA-65 under the default input
formats yields the seed and no private key. -/
theorem d2i_bare_seed_65 (seed : List Nat) (hs : seed.length = 32) :
    ossl_ml_dsa_d2i_PKCS8 ml_dsa_65_params ml_dsa_65_p8fmt none true seed
      = .ok ⟨some seed, none⟩ := by
  have hfind : findAccepted (initSlots ml_dsa_65_p8fmt) 32 (loadU32BE seed 0)
      = some ml_dsa_65_fmt_bare_seed := by
    rw [findAccepted]
    simp [initSlots, ml_dsa_65_p8fmt, List.find?, p8_accept,
      ml_dsa_65_fmt_seed_priv, ml_dsa_65_fmt_priv_only, ml_dsa_65_fmt_oqskeypair,
      ml_dsa_65_fmt_seed_only, ml_dsa_65_fmt_bare_priv, ml_dsa_65_fmt_bare_seed]
  have hwalk : fieldWalk ml_dsa_65_params ml_dsa_65_fmt_bare_seed seed
      (cursorStart ml_dsa_65_fmt_bare_seed) = some 32 := by
    simp [fieldWalk, seedStep, privStep, pubStep, cursorStart,
      ml_dsa_65_fmt_bare_seed, ml_dsa_65_params, ML_DSA_SEED_BYTES]
  have hlm : ¬ lenMismatch ml_dsa_65_params ml_dsa_65_fmt_bare_seed := by decide
  have hseed : (seed.drop 0).take 32 = seed := by
    rw [List.drop_zero, ← hs, List.take_length]
  simp only [ossl_ml_dsa_d2i_PKCS8, vp8_order, hs, hfind, hwalk, hlm]
  norm_num [ml_dsa_65_fmt_bare_seed, ML_DSA_SEED_BYTES, hseed]
  omega

/-- Decoding a bare 32-byte seed for ML-DSA-87 under the default input
formats yields the seed and no private key. -/
theorem d2i_bare_seed_87 (seed : List Nat) (hs : seed.length = 32) :
    ossl_ml_dsa_d2i_PKCS8 ml_dsa_87_params ml_dsa_87_p8fmt none true seed
      = .ok ⟨some seed, none⟩ := by
  have hfind : findAccepted (initSlots ml_dsa_87_p8fmt) 32 (loadU32BE seed 0)
      = some ml_dsa_87_fmt_bare_seed := by
    rw [findAccepted]
    simp [initSlots, ml_dsa_87_p8fmt, List.find?, p8_accept,
      ml_dsa_87_fmt_seed_priv, ml_dsa_87_fmt_priv_only, ml_dsa_87_fmt_oqskeypair,
      ml_dsa_87_fmt_seed_only, ml_dsa_87_fmt_bare_priv, ml_dsa_87_fmt_bare_seed]
  have hwalk : fieldWalk ml_dsa_87_params ml_dsa_87_fmt_bare_seed seed
      (cursorStart ml_dsa_87_fmt_bare_seed) = some 32 := by
    simp [fieldWalk, seedStep, privStep, pubStep, cursorStart,
      ml_dsa_87_fmt_bare_seed, ml_dsa_87_params, ML_DSA_SEED_BYTES]
  have hlm : ¬ lenMismatch ml_dsa_87_params ml_dsa_87_fmt_bare_seed := by decide
  have hseed : (seed.drop 0).take 32 = seed := by
    rw [List.drop_zero, ← hs, List.take_length]
  simp only [ossl_ml_dsa_d2i_PKCS8, vp8_order, hs, hfind, hwalk, hlm]
  norm_num [ml_dsa_87_fmt_bare_seed, ML_DSA_SEED_BYTES, hseed]
  omega

/-- Encoding an ML-DSA-65 key that has both seed and private bytes with
"seed-priv" as the only enabled output format produces the canonical
seed-priv payload. -/
theorem i2d_seed_priv_65 (seed priv : List Nat) (pub : Option (List Nat))
    (hs : seed.length = 32) (hp : priv.length = 4032) :
    ossl_ml_dsa_i2d_prvkey ml_dsa_65_params ml_dsa_65_p8fmt (some nm_seed_priv)
        ⟨some seed, some priv, pub⟩
      = .ok (sp65_payload seed priv) := by
  have hvp8 : vp8_order ml_dsa_65_p8fmt (some nm_seed_priv)
      = some [⟨ml_dsa_65_fmt_seed_priv, 1⟩] := by decide
  have hlm : ¬ lenMismatch ml_dsa_65_params ml_dsa_65_fmt_seed_priv := by decide
  simp only [ossl_ml_dsa_i2d_prvkey, hvp8]
  norm_num [List.find?, emitHeader, emitSeed, emitPriv, emitPub, storeU32BE, storeU16BE,
    ml_dsa_65_fmt_seed_priv, hlm, ML_DSA_SEED_BYTES, List.length_append, hs, hp,
    sp65_payload, ml_dsa_65_params]
  exact fun h => absurd h (by decide)

/-- Encoding an ML-DSA-87 key that has both seed and private bytes with
"seed-priv" as the only enabled output format produces the canonical
seed-priv payload. -/
theorem i2d_seed_priv_87 (seed priv : List Nat) (pub : Option (List Nat))
    (hs : seed.length = 32) (hp : priv.length = 4896) :
    ossl_ml_dsa_i2d_prvkey ml_dsa_87_params ml_dsa_87_p8fmt (some nm_seed_priv)
        ⟨some seed, some priv, pub⟩
      = .ok (sp87_payload seed priv) := by
  have hvp8 : vp8_order ml_dsa_87_p8fmt (some nm_seed_priv)
      = some [⟨ml_dsa_87_fmt_seed_priv, 1⟩] := by decide
  have hlm : ¬ lenMismatch ml_dsa_87_params ml_dsa_87_fmt_seed_priv := by decide
  simp only [ossl_ml_dsa_i2d_prvkey, hvp8]
  norm_num [List.find?, emitHeader, emitSeed, emitPriv, emitPub, storeU32BE, storeU16BE,
    ml_dsa_87_fmt_seed_priv, hlm, ML_DSA_SEED_BYTES, List.length_append, hs, hp,
    sp87_payload, ml_dsa_87_params]
  exact fun h => absurd h (by decide)

/-- Encoding an ML-DSA-44 key that has a seed with "seed-only" as the only
enabled output format produces the 34-byte seed-only payload. -/
theorem i2d_seed_only_44 (seed priv : List Nat) (pub : Option (List Nat))
    (hs : seed.length = 32) :
    ossl_ml_dsa_i2d_prvkey ml_dsa_44_params ml_dsa_44_p8fmt (some nm_seed_only)
        ⟨some seed, some priv, pub⟩
      = .ok (so_payload seed) := by
  have hvp8 : vp8_order ml_dsa_44_p8fmt (some nm_seed_only)
      = some [⟨ml_dsa_44_fmt_seed_only, 1⟩] := by decide
  have hlm : ¬ lenMismatch ml_dsa_44_params ml_dsa_44_fmt_seed_only := by decide
  simp only [ossl_ml_dsa_i2d_prvkey, hvp8]
  norm_num [List.find?, emitHeader, emitSeed, emitPriv, emitPub, storeU32BE, storeU16BE,
    ml_dsa_44_fmt_seed_only, hlm, ML_DSA_SEED_BYTES, List.length_append, hs,
    so_payload, ml_dsa_44_params]
  exact fun h => absurd h (by decide)

/-- Encoding an ML-DSA-65 key that has a seed with "seed-only" as the only
enabled output format produces the 34-byte seed-only payload. -/
theorem i2d_seed_only_65 (seed priv : List Nat) (pub : Option (List Nat))
    (hs : seed.length = 32) :
    ossl_ml_dsa_i2d_prvkey ml_dsa_65_params ml_dsa_65_p8fmt (some nm_seed_only)
        ⟨some seed, some priv, pub⟩
      = .ok (so_payload seed) := by
  have hvp8 : vp8_order ml_dsa_65_p8fmt (some nm_seed_only)
      = some [⟨ml_dsa_65_fmt_seed_only, 1⟩] := by decide
  have hlm : ¬ lenMismatch ml_dsa_65_params ml_dsa_65_fmt_seed_only := by decide
  simp only [ossl_ml_dsa_i2d_prvkey, hvp8]
  norm_num [List.find?, emitHeader, emitSeed, emitPriv, emitPub, storeU32BE, storeU16BE,
    ml_dsa_65_fmt_seed_only, hlm, ML_DSA_SEED_BYTES, List.length_append, hs,
    so_payload, ml_dsa_65_params]
  exact fun h => absurd h (by decide)

/-- Encoding an ML-DSA-87 key that has a seed with "seed-only" as the only
enabled output format produces the 34-byte seed-only payload. -/
theorem i2d_seed_only_87 (seed priv : List Nat) (pub : Option (List Nat))
    (hs : seed.length = 32) :
    ossl_ml_dsa_i2d_prvkey ml_dsa_87_params ml_dsa_87_p8fmt (some nm_seed_only)
        ⟨some seed, some priv, pub⟩
      = .ok (so_payload seed) := by
  have hvp8 : vp8_order ml_dsa_87_p8fmt (some nm_seed_only)
      = some [⟨ml_dsa_87_fmt_seed_only, 1⟩] := by decide
  have hlm : ¬ lenMismatch ml_dsa_87_params ml_dsa_87_fmt_seed_only := by decide
  simp only [ossl_ml_dsa_i2d_prvkey, hvp8]
  norm_num [List.find?, emitHeader, emitSeed, emitPriv, emitPub, storeU32BE, storeU16BE,
    ml_dsa_87_fmt_seed_only, hlm, ML_DSA_SEED_BYTES, List.length_append, hs,
    so_payload, ml_dsa_87_params]
  exact fun h => absurd h (by decide)

/-- Encoding an ML-DSA-44 key that has a seed with "bare-seed" as the only
enabled output format emits exactly the raw 32 seed bytes. -/
theorem i2d_bare_seed_44 (seed priv : List Nat) (pub : Option (List Nat))
    (hs : seed.length = 32) :
    ossl_ml_dsa_i2d_prvkey ml_dsa_44_params ml_dsa_44_p8fmt (some nm_bare_seed)
        ⟨some seed, some priv, pub⟩
      = .ok seed := by
  have hvp8 : vp8_order ml_dsa_44_p8fmt (some nm_bare_seed)
      = some [⟨ml_dsa_44_fmt_bare_seed, 1⟩] := by decide
  have hlm : ¬ lenMismatch ml_dsa_44_params ml_dsa_44_fmt_bare_seed := by decide
  simp only [ossl_ml_dsa_i2d_prvkey, hvp8]
  norm_num [List.find?, emitHeader, emitSeed, emitPriv, emitPub, storeU32BE, storeU16BE,
    ml_dsa_44_fmt_bare_seed, hlm, ML_DSA_SEED_BYTES, List.length_append, hs,
    ml_dsa_44_params]
  exact fun h => absurd h (by decide)

/-- Encoding an ML-DSA-65 key that has a seed with "bare-seed" as the only
enabled output format emits exactly the raw 32 seed bytes. -/
theorem i2d_bare_seed_65 (seed priv : List Nat) (pub : Option (List Nat))
    (hs : seed.length = 32) :
    ossl_ml_dsa_i2d_prvkey ml_dsa_65_params ml_dsa_65_p8fmt (some nm_bare_seed)
        ⟨some seed, some priv, pub⟩
      = .ok seed := by
  have hvp8 : vp8_order ml_dsa_65_p8fmt (some nm_bare_seed)
      = some [⟨ml_dsa_65_fmt_bare_seed, 1⟩] := by decide
  have hlm : ¬ lenMismatch ml_dsa_65_params ml_dsa_65_fmt_bare_seed := by decide
  simp only [ossl_ml_dsa_i2d_prvkey, hvp8]
  norm_num [List.find?, emitHeader, emitSeed, emitPriv, emitPub, storeU32BE, storeU16BE,
    ml_dsa_65_fmt_bare_seed, hlm, ML_DSA_SEED_BYTES, List.length_append, hs,
    ml_dsa_65_params]
  exact fun h => absurd h (by decide)

/-- Encoding an ML-DSA-87 key that has a seed with "bare-seed" as the only
enabled output format emits exactly the raw 32 seed bytes. -/
theorem i2d_bare_seed_87 (seed priv : List Nat) (pub : Option (List Nat))
    (hs : seed.length = 32) :
    ossl_ml_dsa_i2d_prvkey ml_dsa_87_params ml_dsa_87_p8fmt (some nm_bare_seed)
        ⟨some seed, some priv, pub⟩
      = .ok seed := by
  have hvp8 : vp8_order ml_dsa_87_p8fmt (some nm_bare_seed)
      = some [⟨ml_dsa_87_fmt_bare_seed, 1⟩] := by decide
  have hlm : ¬ lenMismatch ml_dsa_87_params ml_dsa_87_fmt_bare_seed := by decide
  simp only [ossl_ml_dsa_i2d_prvkey, hvp8]
  norm_num [List.find?, emitHeader, emitSeed, emitPriv, emitPub, storeU32BE, storeU16BE,
    ml_dsa_87_fmt_bare_seed, hlm, ML_DSA_SEED_BYTES, List.length_append, hs,
    ml_dsa_87_params]
  exact fun h => absurd h (by decide)

/-- Encoding an ML-DSA-44 key that has only private bytes (no seed) under
the default output-format configuration selects priv-only and produces the
0x0a04-byte payload led by the priv-only 4-byte magic. -/
theorem i2d_priv_only_44_default (priv : List Nat) (pub : Option (List Nat))
    (hp : priv.length = 2560) :
    ossl_ml_dsa_i2d_prvkey ml_dsa_44_params ml_dsa_44_p8fmt none
        ⟨none, some priv, pub⟩
      = .ok ([0x04, 0x82, 0x0a, 0x00] ++ priv) := by
  simp only [ossl_ml_dsa_i2d_prvkey, vp8_order]
  simp [List.find?, initSlots, ml_dsa_44_p8fmt, emitHeader, emitSeed, emitPriv,
    emitPub, storeU32BE, storeU16BE, ml_dsa_44_fmt_seed_priv, ml_dsa_44_fmt_priv_only,
    ML_DSA_SEED_BYTES, List.length_append, hp, ml_dsa_44_params, lenMismatch]

/-- The 32 bytes at offset 6 of an ML-DSA-44 seed-priv payload are the
seed. -/
theorem sp44_seed_at_6 (seed priv : List Nat) (hs : seed.length = 32) :
    ((sp44_payload seed priv).drop 6).take 32 = seed := by
  have hre6 : (sp44_payload seed priv).drop 6 =
      seed ++ ([0x04, 0x82, 0x0a, 0x00] ++ priv) := by
    unfold sp44_payload
    rw [List.drop_left' (by simp)]
  rw [hre6, List.take_left' hs]

/-- The 2560 bytes at offset 0x2a of an ML-DSA-44 seed-priv payload are
the private key. -/
theorem sp44_priv_at_42 (seed priv : List Nat) (hs : seed.length = 32)
    (hp : priv.length = 2560) :
    ((sp44_payload seed priv).drop 42).take 2560 = priv := by
  have hre : sp44_payload seed priv =
      (([0x30, 0x82, 0x0a, 0x26, 0x04, 0x20] ++ seed) ++ [0x04, 0x82, 0x0a, 0x00]) ++
        priv := by
    simp [sp44_payload]
  rw [hre, List.drop_left' (by simp [hs]), ← hp, List.take_length]

/-- Structural validation of an ML-DSA-44 seed-priv payload walks the
cursor from position 4 to exactly the end of the 0x0a2a-byte payload. -/
theorem sp44_walk (seed priv : List Nat) (hs : seed.length = 32) :
    fieldWalk ml_dsa_44_params ml_dsa_44_fmt_seed_priv (sp44_payload seed priv)
      (cursorStart ml_dsa_44_fmt_seed_priv) = some 2602 := by
  have hre38 : (sp44_payload seed priv).drop 38 = [0x04, 0x82, 0x0a, 0x00] ++ priv := by
    have hre : sp44_payload seed priv =
        ([0x30, 0x82, 0x0a, 0x26, 0x04, 0x20] ++ seed) ++
          ([0x04, 0x82, 0x0a, 0x00] ++ priv) := by
      simp [sp44_payload]
    rw [hre, List.drop_left' (by simp [hs])]
  have hl16 : loadU16BE (sp44_payload seed priv) 4 = 0x0420 := by
    simp [sp44_payload, loadU16BE, beVal]
  have hl32p : loadU32BE (sp44_payload seed priv) 38 = 0x04820a00 := by
    rw [loadU32BE, hre38]
    simp [beVal]
  simp [fieldWalk, seedStep, privStep, pubStep, cursorStart,
    ml_dsa_44_fmt_seed_priv, ml_dsa_44_params, hl16, hl32p, ML_DSA_SEED_BYTES]

/-- Over a table whose formats all pass the declared-length cross-check,
private-key decode reports no-format-enabled exactly when either the
resolver failed or no enabled candidate passes the length-plus-magic
test (assuming a payload of at least 4 bytes). -/
theorem d2i_noformat_iff {v : ML_DSA_PARAMS} {table : List ML_DSA_PKCS8_FMT}
    (hok : ∀ f ∈ table, ¬ lenMismatch v f)
    (formats : Option (List Char)) (buf : List Nat) (h4 : 4 ≤ buf.length) :
    ossl_ml_dsa_d2i_PKCS8 v table formats true buf = .error .noFormatEnabled ↔
      vp8_order table formats = none
      ∨ ∃ slots, vp8_order table formats = some slots
          ∧ findAccepted slots buf.length (loadU32BE buf 0) = none := by
  have hn4 : ¬(buf.length < 4) := by omega
  cases hvp8 : vp8_order table formats with
  | none =>
    rw [ossl_ml_dsa_d2i_PKCS8, hvp8]
    simp
  | some slots =>
    rw [ossl_ml_dsa_d2i_PKCS8, hvp8]
    dsimp only
    rw [if_neg (by simp), if_neg hn4]
    cases hfind : findAccepted slots buf.length (loadU32BE buf 0) with
    | none =>
      constructor
      · intro _
        exact Or.inr ⟨slots, rfl, hfind⟩
      · intro _
        rfl
    | some f =>
      have hsf : f ∈ table := by
        obtain ⟨s, hfs, hsfmt⟩ := Option.map_eq_some'.mp hfind
        exact hsfmt ▸ vp8_order_fmt_mem hvp8 (List.mem_of_find?_eq_some hfs)
      dsimp only
      rw [if_neg (hok f hsf)]
      refine iff_of_false ?_ ?_
      · cases hw : fieldWalk v f buf (cursorStart f) with
        | none => simp
        | some pos =>
          by_cases hpos : pos = buf.length <;> simp [hpos]
      · rintro (h | ⟨slots', hvp8', hfind'⟩)
        · cases h
        · cases Option.some.inj hvp8'
          rw [hfind] at hfind'
          cases hfind'

/-- C1 (counterexample): the claim as stated fails for the seed-carrying
formats that do not store the expanded key.  With seed-only as the enabled
output format, encode-then-decode of an ML-DSA-44 key holding both a seed
and private bytes returns material with no private bytes at all, so the
"original private-key bytes" are not recovered. -/
theorem C1_counterexample :
    roundTrip ml_dsa_44_params ml_dsa_44_p8fmt nm_seed_only
        ⟨some seed_c, some priv44_c, none⟩
      = some ⟨some seed_c, none⟩
    ∧ (some (⟨some seed_c, none⟩ : DecodedMaterial)
        ≠ some ⟨some seed_c, some priv44_c⟩) := by
  constructor
  · simp only [roundTrip, i2d_seed_only_44 seed_c priv44_c none (by simp [seed_c]),
      d2i_seed_only_44 seed_c (by simp [seed_c])]
  · simp

/-- C1 (amended): for every parameter set, when the enabled output format
is a seed-carrying one, decode of encode recovers the seed bytes exactly;
the private-key bytes are additionally recovered exactly for seed-priv
(which stores them), while seed-only and bare-seed round-trip to material
holding the seed only. -/
theorem C1_amended :
    (∀ seed priv : List Nat, seed.length = 32 → priv.length = 2560 →
      roundTrip ml_dsa_44_params ml_dsa_44_p8fmt nm_seed_priv ⟨some seed, some priv, none⟩
        = some ⟨some seed, some priv⟩)
    ∧ (∀ seed priv : List Nat, seed.length = 32 → priv.length = 4032 →
      roundTrip ml_dsa_65_params ml_dsa_65_p8fmt nm_seed_priv ⟨some seed, some priv, none⟩
        = some ⟨some seed, some priv⟩)
    ∧ (∀ seed priv : List Nat, seed.length = 32 → priv.length = 4896 →
      roundTrip ml_dsa_87_params ml_dsa_87_p8fmt nm_seed_priv ⟨some seed, some priv, none⟩
        = some ⟨some seed, some priv⟩)
    ∧ (∀ seed priv : List Nat, seed.length = 32 →
      roundTrip ml_dsa_44_params ml_dsa_44_p8fmt nm_seed_only ⟨some seed, some priv, none⟩
        = some ⟨some seed, none⟩)
    ∧ (∀ seed priv : List Nat, seed.length = 32 →
      roundTrip ml_dsa_65_params ml_dsa_65_p8fmt nm_seed_only ⟨some seed, some priv, none⟩
        = some ⟨some seed, none⟩)
    ∧ (∀ seed priv : List Nat, seed.length = 32 →
      roundTrip ml_dsa_87_params ml_dsa_87_p8fmt nm_seed_only ⟨some seed, some priv, none⟩
        = some ⟨some seed, none⟩)
    ∧ (∀ seed priv : List Nat, seed.length = 32 →
      roundTrip ml_dsa_44_params ml_dsa_44_p8fmt nm_bare_seed ⟨some seed, some priv, none⟩
        = some ⟨some seed, none⟩)
    ∧ (∀ seed priv : List Nat, seed.length = 32 →
      roundTrip ml_dsa_65_params ml_dsa_65_p8fmt nm_bare_seed ⟨some seed, some priv, none⟩
        = some ⟨some seed, none⟩)
    ∧ (∀ seed priv : List Nat, seed.length = 32 →
      roundTrip ml_dsa_87_params ml_dsa_87_p8fmt nm_bare_seed ⟨some seed, some priv, none⟩
        = some ⟨some seed, none⟩) := by
  refine ⟨?_, ?_, ?_, ?_, ?_, ?_, ?_, ?_, ?_⟩
  · intro seed priv hs hp
    simp only [roundTrip, i2d_seed_priv_44 seed priv none hs hp, d2i_seed_priv_44 seed priv hs hp]
  · intro seed priv hs hp
    simp only [roundTrip, i2d_seed_priv_65 seed priv none hs hp, d2i_seed_priv_65 seed priv hs hp]
  · intro seed priv hs hp
    simp only [roundTrip, i2d_seed_priv_87 seed priv none hs hp, d2i_seed_priv_87 seed priv hs hp]
  · intro seed priv hs
    simp only [roundTrip, i2d_seed_only_44 seed priv none hs, d2i_seed_only_44 seed hs]
  · intro seed priv hs
    simp only [roundTrip, i2d_seed_only_65 seed priv none hs, d2i_seed_only_65 seed hs]
  · intro seed priv hs
    simp only [roundTrip, i2d_seed_only_87 seed priv none hs, d2i_seed_only_87 seed hs]
  · intro seed priv hs
    simp only [roundTrip, i2d_bare_seed_44 seed priv none hs, d2i_bare_seed_44 seed hs]
  · intro seed priv hs
    simp only [roundTrip, i2d_bare_seed_65 seed priv none hs, d2i_bare_seed_65 seed hs]
  · intro seed priv hs
    simp only [roundTrip, i2d_bare_seed_87 seed priv none hs, d2i_bare_seed_87 seed hs]

/-- C1 (witness): the amended round-trip statement at a concrete ML-DSA-44
key with seed and private bytes, encoded in the seed-priv format. -/
theorem C1_witness :
    roundTrip ml_dsa_44_params ml_dsa_44_p8fmt nm_seed_priv
        ⟨some seed_c, some priv44_c, none⟩
      = some ⟨some seed_c, some priv44_c⟩ :=
  C1_amended.1 seed_c priv44_c (by simp [seed_c]) (by simp [priv44_c])

/-- C2 (counterexample): the claim's cursor position is wrong.  A bare
32-byte seed is accepted for ML-DSA-44 as bare-seed, whose header shift is
4; validation starting at the claimed position (`header_shift` = 4 bytes
into the payload) fails, while validation at the code's actual position
(`4 - header_shift` = 0) succeeds and ends at the payload end. -/
theorem C2_counterexample :
    findAccepted (initSlots ml_dsa_44_p8fmt) seed_c.length (loadU32BE seed_c 0)
      = some ml_dsa_44_fmt_bare_seed
    ∧ ml_dsa_44_fmt_bare_seed.p8_shift = 4
    ∧ cursorStart ml_dsa_44_fmt_bare_seed = 0
    ∧ fieldWalk ml_dsa_44_params ml_dsa_44_fmt_bare_seed seed_c
        ml_dsa_44_fmt_bare_seed.p8_shift = none
    ∧ fieldWalk ml_dsa_44_params ml_dsa_44_fmt_bare_seed seed_c
        (4 - ml_dsa_44_fmt_bare_seed.p8_shift) = some seed_c.length := by
  decide

/-- C2 (amended): a length-matching candidate is accepted exactly when its
header shift is 4 or the loaded magic word, shifted right by
`header_shift * 8` bits, equals its outer magic; when decode succeeds on
an accepted candidate, the validation cursor runs from
`4 - header_shift` bytes into the payload to exactly the payload end. -/
theorem C2_amended :
    (∀ (slots : List ML_DSA_PKCS8_FMT_PREF) (len magic : Nat) (f : ML_DSA_PKCS8_FMT),
      findAccepted slots len magic = some f →
        len = f.p8_bytes ∧ (f.p8_shift = 4 ∨ magic >>> (f.p8_shift * 8) = f.p8_magic))
    ∧ (∀ (s : ML_DSA_PKCS8_FMT_PREF) (slots : List ML_DSA_PKCS8_FMT_PREF)
        (len magic : Nat), s ∈ slots → len = s.fmt.p8_bytes →
        (p8_accept len magic s.fmt = true ↔
          (s.fmt.p8_shift = 4 ∨ magic >>> (s.fmt.p8_shift * 8) = s.fmt.p8_magic)))
    ∧ (∀ (v : ML_DSA_PARAMS) (table : List ML_DSA_PKCS8_FMT)
        (formats : Option (List Char)) (buf : List Nat) (f : ML_DSA_PKCS8_FMT)
        (slots : List ML_DSA_PKCS8_FMT_PREF) (m : DecodedMaterial),
        vp8_order table formats = some slots →
        findAccepted slots buf.length (loadU32BE buf 0) = some f →
        ossl_ml_dsa_d2i_PKCS8 v table formats true buf = .ok m →
        fieldWalk v f buf (4 - f.p8_shift) = some buf.length) := by
  refine ⟨?_, ?_, ?_⟩
  · intro slots len magic f h
    obtain ⟨s, hfs, hsfmt⟩ := Option.map_eq_some'.mp h
    have hacc := List.find?_some hfs
    rw [p8_accept] at hacc
    simp only [Bool.and_eq_true, Bool.or_eq_true, beq_iff_eq] at hacc
    exact hsfmt ▸ hacc
  · intro s slots len magic hmem hlen
    simp [p8_accept, hlen]
  · intro v table formats buf f slots m hvp8 hfind hdec
    rw [ossl_ml_dsa_d2i_PKCS8, hvp8] at hdec
    dsimp only at hdec
    rw [if_neg (by simp)] at hdec
    by_cases h4 : buf.length < 4
    · rw [if_pos h4] at hdec
      cases hdec
    · rw [if_neg h4, hfind] at hdec
      dsimp only at hdec
      by_cases hlm : lenMismatch v f
      · rw [if_pos hlm] at hdec
        cases hdec
      · rw [if_neg hlm] at hdec
        cases hw : fieldWalk v f buf (cursorStart f) with
        | none =>
          rw [hw] at hdec
          cases hdec
        | some pos =>
          rw [hw] at hdec
          dsimp only at hdec
          by_cases hpos : pos = buf.length
          · rw [cursorStart] at hw
            rw [← hpos]
            exact hw
          · rw [if_neg hpos] at hdec
            cases hdec

/-- C2 (witness): instances of the amended acceptance test: a 34-byte
payload at the seed-only candidate whose magic matches after a 16-bit
shift. -/
theorem C2_witness :
    p8_accept 34 0x80201111 ml_dsa_44_fmt_seed_only = true ↔
      (ml_dsa_44_fmt_seed_only.p8_shift = 4 ∨
        0x80201111 >>> (ml_dsa_44_fmt_seed_only.p8_shift * 8)
          = ml_dsa_44_fmt_seed_only.p8_magic) :=
  C2_amended.2.1 ⟨ml_dsa_44_fmt_seed_only, 0⟩ [⟨ml_dsa_44_fmt_seed_only, 0⟩] 34
    0x80201111 (by decide) (by decide)

/-- C3 (counterexample): decoding a well-formed 0x0a2a-byte ML-DSA-44
seed-priv payload recovers the private key from offset 0x2a, not from the
position immediately following the seed (offset 38 = 6 + 32): the four
bytes there are the inner private-key tag/length header. -/
theorem C3_counterexample :
    ossl_ml_dsa_d2i_PKCS8 ml_dsa_44_params ml_dsa_44_p8fmt none true sp44_c
      = .ok ⟨some seed_c, some priv44_c⟩
    ∧ priv44_c = (sp44_c.drop 42).take 2560
    ∧ priv44_c ≠ (sp44_c.drop 38).take 2560 := by
  have hre38 : sp44_c.drop 38 = [0x04, 0x82, 0x0a, 0x00] ++ priv44_c := by
    show (sp44_payload seed_c priv44_c).drop 38 = _
    have hre : sp44_payload seed_c priv44_c =
        ([0x30, 0x82, 0x0a, 0x26, 0x04, 0x20] ++ seed_c) ++
          ([0x04, 0x82, 0x0a, 0x00] ++ priv44_c) := by
      simp [sp44_payload]
    rw [hre, List.drop_left' (by simp [seed_c])]
  refine ⟨?_, ?_, ?_⟩
  · exact d2i_seed_priv_44 seed_c priv44_c (by simp [seed_c]) (by simp [priv44_c])
  · exact (sp44_priv_at_42 seed_c priv44_c (by simp [seed_c]) (by simp [priv44_c])).symm
  · intro h
    have hp0 : priv44_c = 0x22 :: List.replicate 2559 0x22 := rfl
    have h38 : ([0x04, 0x82, 0x0a, 0x00] ++ priv44_c).take 2560 =
        0x04 :: (([0x82, 0x0a, 0x00] ++ priv44_c).take 2559) := rfl
    rw [hre38, h38, hp0] at h
    injection h with h1 h2
    exact absurd h1 (by norm_num)

/-- C3 (amended): decode of a well-formed 0x0a2a-byte ML-DSA-44 seed-priv
payload recovers the 32-byte seed from payload offset 6 and the 2560-byte
private key from payload offset 0x2a (four bytes past the end of the
seed, separated from it by the inner private-key header), with the
validation cursor ending exactly at offset 0x0a2a. -/
theorem C3_amended (seed priv : List Nat) (hs : seed.length = 32)
    (hp : priv.length = 2560) :
    (sp44_payload seed priv).length = 0x0a2a
    ∧ ossl_ml_dsa_d2i_PKCS8 ml_dsa_44_params ml_dsa_44_p8fmt none true
        (sp44_payload seed priv) = .ok ⟨some seed, some priv⟩
    ∧ ((sp44_payload seed priv).drop 6).take 32 = seed
    ∧ ((sp44_payload seed priv).drop 0x2a).take 2560 = priv
    ∧ fieldWalk ml_dsa_44_params ml_dsa_44_fmt_seed_priv (sp44_payload seed priv)
        (cursorStart ml_dsa_44_fmt_seed_priv) = some 0x0a2a :=
  ⟨by simp [sp44_payload, hs, hp],
   d2i_seed_priv_44 seed priv hs hp,
   sp44_seed_at_6 seed priv hs,
   sp44_priv_at_42 seed priv hs hp,
   sp44_walk seed priv hs⟩

/-- C3 (witness): the amended statement at a concrete payload. -/
theorem C3_witness :
    sp44_c.length = 0x0a2a
    ∧ ossl_ml_dsa_d2i_PKCS8 ml_dsa_44_params ml_dsa_44_p8fmt none true sp44_c
        = .ok ⟨some seed_c, some priv44_c⟩
    ∧ (sp44_c.drop 6).take 32 = seed_c
    ∧ (sp44_c.drop 0x2a).take 2560 = priv44_c
    ∧ fieldWalk ml_dsa_44_params ml_dsa_44_fmt_seed_priv sp44_c
        (cursorStart ml_dsa_44_fmt_seed_priv) = some 0x0a2a :=
  C3_amended seed_c priv44_c (by simp [seed_c]) (by simp [priv44_c])

/-- C4 (counterexample): public-key encode does not prepend the 22-byte
SPKI prefix: for a key holding 1312 public bytes it returns exactly those
bytes, which differ from the prefix-plus-bytes envelope the claim
describes. -/
theorem C4_counterexample :
    ossl_ml_dsa_i2d_pubkey ml_dsa_44_params ⟨none, none, some (List.replicate 1312 7)⟩
      = .ok (List.replicate 1312 7)
    ∧ (List.replicate 1312 7 : List Nat) ≠ ml_dsa_44_spkifmt ++ List.replicate 1312 7 := by
  constructor
  · simp [ossl_ml_dsa_i2d_pubkey, ml_dsa_44_params, List.take_replicate]
  · intro h
    have hlen := congrArg List.length h
    simp [ml_dsa_44_spkifmt] at hlen

/-- C4 (amended): public-key encode returns exactly the raw public-key
bytes (without the SPKI prefix, which the surrounding envelope layer
supplies) when public bytes are present, and fails with NotAPublicKey when
none are available. -/
theorem C4_amended (v : ML_DSA_PARAMS) (key : ML_DSA_KeyMaterial) :
    (key.pub = none → ossl_ml_dsa_i2d_pubkey v key = .error .notAPublicKey)
    ∧ (∀ pk : List Nat, key.pub = some pk → pk.length = v.pk_len →
        ossl_ml_dsa_i2d_pubkey v key = .ok pk) := by
  constructor
  · intro h
    rw [ossl_ml_dsa_i2d_pubkey, h]
  · intro pk hpk hlen
    rw [ossl_ml_dsa_i2d_pubkey, hpk]
    dsimp only
    rw [← hlen, List.take_length]

/-- C4 (witness): the amended statement at a concrete ML-DSA-44 key with
1312 public bytes. -/
theorem C4_witness :
    ossl_ml_dsa_i2d_pubkey ml_dsa_44_params ⟨none, none, some (List.replicate 1312 7)⟩
      = .ok (List.replicate 1312 7) :=
  (C4_amended ml_dsa_44_params ⟨none, none, some (List.replicate 1312 7)⟩).2
    (List.replicate 1312 7) rfl (by simp [ml_dsa_44_params])

/-- C5: the resolver's output is exactly the descriptors matched by some
token (the slots the token loop selected), in ascending order of the
priority assigned at first match, with unmatched descriptors absent; in
particular "bare-seed,unknown,priv-only" enables exactly bare-seed then
priv-only, the unknown token having no effect. -/
theorem C5_resolver :
    vp8_order ml_dsa_44_p8fmt (some cfg_c5)
      = some [⟨ml_dsa_44_fmt_bare_seed, 1⟩, ⟨ml_dsa_44_fmt_priv_only, 2⟩]
    ∧ (∀ (table : List ML_DSA_PKCS8_FMT) (cfg : List Char)
        (slots : List ML_DSA_PKCS8_FMT_PREF),
        vp8_order table (some cfg) = some slots →
        slots.Perm
          (((vp8AssignGo (initSlots table) 0 (tokenize cfg)).1).filter selected)
        ∧ slots.Sorted prefLT) :=
  ⟨by decide, fun _ _ _ h => vp8_order_spec h⟩

/-- C5 (witness): the characterization applied at the spec's concrete
configuration for the ML-DSA-44 table. -/
theorem C5_witness :
    ([⟨ml_dsa_44_fmt_bare_seed, 1⟩, ⟨ml_dsa_44_fmt_priv_only, 2⟩] :
        List ML_DSA_PKCS8_FMT_PREF).Perm
      (((vp8AssignGo (initSlots ml_dsa_44_p8fmt) 0 (tokenize cfg_c5)).1).filter selected)
    ∧ ([⟨ml_dsa_44_fmt_bare_seed, 1⟩, ⟨ml_dsa_44_fmt_priv_only, 2⟩] :
        List ML_DSA_PKCS8_FMT_PREF).Sorted prefLT :=
  C5_resolver.2 ml_dsa_44_p8fmt cfg_c5
    [⟨ml_dsa_44_fmt_bare_seed, 1⟩, ⟨ml_dsa_44_fmt_priv_only, 2⟩] (by decide)

/-- C6 (counterexample): decode of an empty payload fails, but silently
rather than with the no-format-enabled error, even though no enabled
candidate passes the length check for it: the claim's "exactly" does not
hold for payloads shorter than 4 bytes. -/
theorem C6_counterexample :
    ossl_ml_dsa_d2i_PKCS8 ml_dsa_44_params ml_dsa_44_p8fmt none true []
      = .error .shortInput
    ∧ (Except.error DecodeError.shortInput
        ≠ (Except.error DecodeError.noFormatEnabled :
            Except DecodeError DecodedMaterial))
    ∧ (∀ f ∈ ml_dsa_44_p8fmt, ([] : List Nat).length ≠ f.p8_bytes) := by
  refine ⟨rfl, by simp, by decide⟩

/-- C6 (amended): the resolver fails with no-format-enabled iff a
configuration string is present and none of its tokens matches any
descriptor name; and for payloads of at least 4 bytes, private-key decode
fails with no-format-enabled iff the resolver failed or no enabled
candidate is accepted by the length-plus-magic check (payloads shorter
than 4 bytes fail without this error). -/
theorem C6_amended :
    (∀ (table : List ML_DSA_PKCS8_FMT) (cfg : List Char),
      vp8_order table (some cfg) = none ↔
        ∀ tok ∈ tokenize cfg, ∀ f ∈ table,
          strncaseEq f.p8_name tok tok.length = false)
    ∧ (∀ vt ∈ [(ml_dsa_44_params, ml_dsa_44_p8fmt),
          (ml_dsa_65_params, ml_dsa_65_p8fmt), (ml_dsa_87_params, ml_dsa_87_p8fmt)],
        ∀ (formats : Option (List Char)) (buf : List Nat), 4 ≤ buf.length →
          (ossl_ml_dsa_d2i_PKCS8 vt.1 vt.2 formats true buf
              = .error .noFormatEnabled ↔
            vp8_order vt.2 formats = none
            ∨ ∃ slots, vp8_order vt.2 formats = some slots
                ∧ findAccepted slots buf.length (loadU32BE buf 0) = none)) := by
  constructor
  · intro table cfg
    have hmk : ∀ tok : List Char, markTok tok 0 (initSlots table) = none ↔
        ∀ f ∈ table, strncaseEq f.p8_name tok tok.length = false := by
      intro tok
      rw [markTok_eq_none]
      constructor
      · intro h f hf
        have := h ⟨f, 0⟩ (List.mem_map_of_mem _ hf)
        simp at this
        exact this
      · intro h s hs
        obtain ⟨f, hf, rfl⟩ := List.mem_map.mp hs
        intro ⟨_, hm⟩
        rw [h f hf] at hm
        cases hm
    rw [vp8_order]
    by_cases hc : (vp8AssignGo (initSlots table) 0 (tokenize cfg)).2 = 0
    · rw [if_pos hc]
      refine iff_of_true rfl ?_
      intro tok htok
      exact (hmk tok).mp ((vp8AssignGo_count_zero (tokenize cfg) (initSlots table)).mp
        hc tok htok)
    · rw [if_neg hc]
      refine iff_of_false (by simp) ?_
      intro hall
      exact hc ((vp8AssignGo_count_zero (tokenize cfg) (initSlots table)).mpr
        (fun t ht => (hmk t).mpr (hall t ht)))
  · intro vt hvt formats buf h4
    have hok : ∀ f ∈ vt.2, ¬ lenMismatch vt.1 f := by
      rcases List.mem_cons.mp hvt with rfl | hvt
      · decide
      rcases List.mem_cons.mp hvt with rfl | hvt
      · decide
      rcases List.mem_cons.mp hvt with rfl | hvt
      · decide
      cases hvt
    exact d2i_noformat_iff hok formats buf h4

/-- C6 (witness): the amended equivalence at a 4-byte all-zero ML-DSA-44
payload, whose length matches no enabled format. -/
theorem C6_witness :
    ossl_ml_dsa_d2i_PKCS8 ml_dsa_44_params ml_dsa_44_p8fmt none true
        (List.replicate 4 0) = .error .noFormatEnabled ↔
      vp8_order ml_dsa_44_p8fmt none = none
      ∨ ∃ slots, vp8_order ml_dsa_44_p8fmt none = some slots
          ∧ findAccepted slots (List.replicate 4 0).length
              (loadU32BE (List.replicate 4 0) 0) = none :=
  C6_amended.2 (ml_dsa_44_params, ml_dsa_44_p8fmt) (by simp) none
    (List.replicate 4 0) (by simp)

/-- C7: the resolver is deterministic in spite of the internal sort: any
two sorted permutations of the token loop's slot array (any two valid
qsort outputs for the `pref_cmp` comparator) agree on the first `count`
entries, which are all that `vp8_order` returns. -/
theorem C7_determinism (table : List ML_DSA_PKCS8_FMT) (cfg : List Char)
    (l1 l2 : List ML_DSA_PKCS8_FMT_PREF)
    (h1p : l1.Perm (vp8AssignGo (initSlots table) 0 (tokenize cfg)).1)
    (h1s : l1.Sorted prefLE)
    (h2p : l2.Perm (vp8AssignGo (initSlots table) 0 (tokenize cfg)).1)
    (h2s : l2.Sorted prefLE) :
    l1.take (vp8AssignGo (initSlots table) 0 (tokenize cfg)).2
      = l2.take (vp8AssignGo (initSlots table) 0 (tokenize cfg)).2 := by
  have inv := vp8AssignGo_inv (tokenize cfg) (initSlots table) 0 (AssignInv.init table)
  rw [← inv.2.2]
  exact sorted_perm_take_eq inv.2.1 h1p h1s h2p h2s

/-- C7 (witness): for the ML-DSA-44 table under the spec's concrete
configuration, the insertion-sorted slot array and a differently ordered
(but still comparator-sorted) array agree after truncation. -/
theorem C7_witness :
    (List.insertionSort prefLE
        (vp8AssignGo (initSlots ml_dsa_44_p8fmt) 0 (tokenize cfg_c5)).1).take
        (vp8AssignGo (initSlots ml_dsa_44_p8fmt) 0 (tokenize cfg_c5)).2
      = c7_l2.take (vp8AssignGo (initSlots ml_dsa_44_p8fmt) 0 (tokenize cfg_c5)).2 :=
  C7_determinism ml_dsa_44_p8fmt cfg_c5 _ c7_l2
    (List.perm_insertionSort prefLE _) (List.sorted_insertionSort prefLE _)
    (by decide) (by decide)

/-- C8: over the compiled tables (whose declared lengths all agree with
their parameter set), the encoder's walk over the enabled candidates in
resolver order picks the first one that is not seedful-without-a-seed,
which coincides with the first candidate surviving both of the claim's
filters; when none survives, encode fails with no-format-enabled.
Concretely, a seedless ML-DSA-44 key under the default configuration
selects priv-only and yields a 0x0a04-byte payload led by that format's
4-byte big-endian magic. -/
theorem C8_encode_walk :
    (∀ vt ∈ [(ml_dsa_44_params, ml_dsa_44_p8fmt), (ml_dsa_65_params, ml_dsa_65_p8fmt),
        (ml_dsa_87_params, ml_dsa_87_p8fmt)],
      ∀ (formats : Option (List Char)) (key : ML_DSA_KeyMaterial)
        (slots : List ML_DSA_PKCS8_FMT_PREF),
        vp8_order vt.2 formats = some slots →
        (slots.find? (fun s => key.seed.isSome || s.fmt.seed_length == 0)
          = slots.find? (fun s =>
              (key.seed.isSome || s.fmt.seed_length == 0) && lengthsMatch vt.1 s.fmt))
        ∧ (∀ sk : List Nat, key.priv = some sk →
            slots.find? (fun s => key.seed.isSome || s.fmt.seed_length == 0) = none →
            ossl_ml_dsa_i2d_prvkey vt.1 vt.2 formats key = .error .noFormatEnabled))
    ∧ (∀ (priv : List Nat) (pub : Option (List Nat)), priv.length = 2560 →
        ossl_ml_dsa_i2d_prvkey ml_dsa_44_params ml_dsa_44_p8fmt none
            ⟨none, some priv, pub⟩
          = .ok ([0x04, 0x82, 0x0a, 0x00] ++ priv)
        ∧ ([0x04, 0x82, 0x0a, 0x00] ++ priv).length = 0x0a04
        ∧ ([0x04, 0x82, 0x0a, 0x00] ++ priv).take 4
            = storeU32BE ml_dsa_44_fmt_priv_only.p8_magic) := by
  constructor
  · intro vt hvt formats key slots hvp8
    have hok : ∀ f ∈ vt.2, lengthsMatch vt.1 f = true := by
      rcases List.mem_cons.mp hvt with rfl | hvt
      · decide
      rcases List.mem_cons.mp hvt with rfl | hvt
      · decide
      rcases List.mem_cons.mp hvt with rfl | hvt
      · decide
      cases hvt
    constructor
    · apply find?_congrOn
      intro s hsl
      rw [hok s.fmt (vp8_order_fmt_mem hvp8 hsl), Bool.and_true]
    · intro sk hsk hnone
      rw [ossl_ml_dsa_i2d_prvkey, hsk]
      dsimp only
      rw [hvp8]
      dsimp only
      rw [hnone]
  · intro priv pub hp
    exact ⟨i2d_priv_only_44_default priv pub hp, by simp [hp], rfl⟩

/-- C8 (witness): the concrete encoding scenario at a 2560-byte private
key. -/
theorem C8_witness :
    ossl_ml_dsa_i2d_prvkey ml_dsa_44_params ml_dsa_44_p8fmt none
        ⟨none, some priv44_c, none⟩
      = .ok ([0x04, 0x82, 0x0a, 0x00] ++ priv44_c)
    ∧ ([0x04, 0x82, 0x0a, 0x00] ++ priv44_c).length = 0x0a04
    ∧ ([0x04, 0x82, 0x0a, 0x00] ++ priv44_c).take 4
        = storeU32BE ml_dsa_44_fmt_priv_only.p8_magic :=
  C8_encode_walk.2 priv44_c none (by simp [priv44_c])

/-- C9: within each parameter set the six total payload lengths are
pairwise distinct, hence at most one format can pass the length check for
a given payload, and the accepted format is independent of the order of
the enabled candidate list. -/
theorem C9_length_disambiguation :
    ((ml_dsa_44_p8fmt.map (·.p8_bytes)).Nodup
      ∧ (ml_dsa_65_p8fmt.map (·.p8_bytes)).Nodup
      ∧ (ml_dsa_87_p8fmt.map (·.p8_bytes)).Nodup)
    ∧ (∀ table ∈ [ml_dsa_44_p8fmt, ml_dsa_65_p8fmt, ml_dsa_87_p8fmt],
        ∀ f ∈ table, ∀ g ∈ table, f.p8_bytes = g.p8_bytes → f = g)
    ∧ (∀ table ∈ [ml_dsa_44_p8fmt, ml_dsa_65_p8fmt, ml_dsa_87_p8fmt],
        ∀ (l1 l2 : List ML_DSA_PKCS8_FMT_PREF) (len magic : Nat),
          (∀ s ∈ l1, s.fmt ∈ table) → l1.Perm l2 →
          findAccepted l1 len magic = findAccepted l2 len magic) := by
  have hnd : ∀ table ∈ [ml_dsa_44_p8fmt, ml_dsa_65_p8fmt, ml_dsa_87_p8fmt],
      (table.map (·.p8_bytes)).Nodup := by decide
  have hinj : ∀ table ∈ [ml_dsa_44_p8fmt, ml_dsa_65_p8fmt, ml_dsa_87_p8fmt],
      ∀ f ∈ table, ∀ g ∈ table, f.p8_bytes = g.p8_bytes → f = g := by
    intro table ht f hf g hg he
    exact List.inj_on_of_nodup_map (hnd table ht) hf hg he
  refine ⟨⟨hnd _ (by simp), hnd _ (by simp), hnd _ (by simp)⟩, hinj, ?_⟩
  intro table ht l1 l2 len magic hsub hperm
  rw [findAccepted, findAccepted]
  apply find?_map_perm _ _ hperm
  intro a ha b hb hpa hpb
  rw [p8_accept] at hpa hpb
  simp only [Bool.and_eq_true, beq_iff_eq] at hpa hpb
  exact hinj table ht a.fmt (hsub a ha) b.fmt (hsub b hb) (by rw [← hpa.1, ← hpb.1])

/-- C9 (witness): the accepted format does not change when the default
ML-DSA-44 candidate list is reversed. -/
theorem C9_witness :
    findAccepted (initSlots ml_dsa_44_p8fmt) 32 0
      = findAccepted ((initSlots ml_dsa_44_p8fmt).reverse) 32 0 :=
  C9_length_disambiguation.2.2 ml_dsa_44_p8fmt (by simp)
    (initSlots ml_dsa_44_p8fmt) ((initSlots ml_dsa_44_p8fmt).reverse) 32 0
    (by decide) (initSlots ml_dsa_44_p8fmt).reverse_perm.symm

/-- C10: a configuration token selects by case-insensitive prefix match
over the token's length (the strncasecmp-based test succeeds exactly when
the token lower-cases to an initial segment of the descriptor name), so
the token "seed" enables the seed-priv descriptor and the token "priv"
enables the priv-only descriptor. -/
theorem C10_token_matching :
    (∀ name tok : List Char,
      strncaseEq name tok tok.length = true ↔
        tok.length ≤ name.length ∧
          (name.take tok.length).map lowerC = tok.map lowerC)
    ∧ vp8_order ml_dsa_44_p8fmt (some cfg_seed)
        = some [⟨ml_dsa_44_fmt_seed_priv, 1⟩]
    ∧ vp8_order ml_dsa_44_p8fmt (some cfg_priv)
        = some [⟨ml_dsa_44_fmt_priv_only, 1⟩] :=
  ⟨fun name tok => strncaseEq_iff tok name, by decide, by decide⟩
